import Mathlib

/-!
# Verification of `pdrs4all/postprocess/spectral_segments.py`

A shallow embedding of the spectral-segment merging module.  Wavelengths,
flux and uncertainty values are modelled as rationals (`ℚ`), so all of the
module's arithmetic (comparisons, linear interpolation, linear blending) is
exact and decidable.  A spectral segment is modelled in its one-dimensional
form (spatial shape `1×1`), which is the case the claims quantify over; the
spectral axis index is then `0` and every numpy axis manipulation acts on the
single wavelength dimension.

Fallible operations are modelled with `Option`: `none` stands for a raised
Python exception (IndexError on `ss[0]` for empty input, the ValueError that
`scipy.interpolate.interp1d` raises for fewer than two samples, numpy
broadcast errors on shape-incompatible assignments) and, inside `merge_1d`
where NaN values flow through the arrays, for NaN itself (interpolation
outside a segment's coverage uses `fill_value=np.nan`; `np.nanmedian` of an
all-NaN column is NaN).  In `merge_nd_memfriendly` interpolation is only ever
evaluated at grid points inside the interpolated segment's coverage, so no
NaN arises there and its buffers are plain rational lists.

Uncertainties are propagated squared: `Merged1.unc2` / `MergedN.unc2` hold
the *square* of the standard-deviation uncertainty the Python code returns
(the code's final step is an elementwise square root, `np.sqrt`, modelled by
`mergedUnc` below via `Real.sqrt`).  Comparing squared uncertainties is
equivalent to comparing the nonnegative uncertainties themselves and keeps
everything decidable.
-/

attribute [local semireducible] Rat.add Rat.mul Rat.inv Rat.sub Rat.ofScientific

/-- A spectral segment: `specutils.Spectrum` restricted to the fields the
module reads — `spectral_axis` (wavelengths), `flux`, and
`uncertainty.array` (standard-deviation semantics). -/
structure Segment where
  spectral_axis : List ℚ
  flux : List ℚ
  uncertainty : List ℚ
deriving DecidableEq, Repr

instance : Inhabited Segment := ⟨⟨[], [], []⟩⟩

/-- First wavelength sample, `s.spectral_axis[0]`. -/
def sHead (s : Segment) : ℚ := s.spectral_axis.headD 0

/-- Last wavelength sample, `s.spectral_axis[-1]`. -/
def sLast (s : Segment) : ℚ := s.spectral_axis.getLastD 0

/-- Insert into a sorted list, before the first element that is not
strictly smaller.  Folding this over a list is a *stable* insertion sort:
an element placed with `le` non-strict stays ahead of every later input
element with an equal key. -/
def insertLe {α : Type} (le : α → α → Bool) (x : α) : List α → List α
  | [] => [x]
  | y :: ys => if le x y then x :: y :: ys else y :: insertLe le x ys

/-- Stable insertion sort.  Python's `sorted` (a stable mergesort) and
`np.sort` (ascending values) produce exactly this list: a stable sort is
determined by its comparison, and an ascending sort of rational *values* is
determined by the input multiset alone. -/
def isort {α : Type} (le : α → α → Bool) (l : List α) : List α :=
  l.foldr (insertLe le) []

/-- Ascending sort of rational values (`np.sort`). -/
def sortQ (l : List ℚ) : List ℚ := isort (fun a b => decide (a ≤ b)) l

/-- `sort` (source lines 18–24): order the segments by their lowest
wavelength.  Python's `sorted` is a stable sort by key. -/
def sort (ss : List Segment) : List Segment :=
  isort (fun a b => decide (sHead a ≤ sHead b)) ss

/-- `find_overlap_ranges` (source lines 27–54): for each consecutive pair,
with `v1` the current segment's first wavelength and `v2` the previous
segment's last wavelength, emit `(v1, v2)` when `v2 > v1`. -/
def find_overlap_ranges : List Segment → List (ℚ × ℚ)
  | a :: b :: rest =>
      (if sHead b < sLast a then [(sHead b, sLast a)] else [])
        ++ find_overlap_ranges (b :: rest)
  | _ => []

/-- `np.sort(np.concatenate([s.spectral_axis for s in ss]))`
(source lines 228 and 313). -/
def unionAxis (ss : List Segment) : List ℚ :=
  sortQ (ss.flatMap Segment.spectral_axis)

/-- One iteration of the grid-rebuild loop (source lines 232–240 and
317–325): keep the running axis's points strictly outside `[wmin, wmax]`,
insert the points of `ss[ileft]` strictly inside `(wmin, wmax)`, and re-sort.
`ir.1` is the `enumerate` index `ileft`, which indexes `ss` directly in the
source. -/
def gridStep (ss : List Segment) (axis : List ℚ) (ir : ℕ × ℚ × ℚ) : List ℚ :=
  let wavs_outside := axis.filter (fun w => decide (w < ir.2.1) || decide (ir.2.2 < w))
  let left_wavs := (ss.getD ir.1 default).spectral_axis
  let wavs_inside := left_wavs.filter (fun w => decide (ir.2.1 < w) && decide (w < ir.2.2))
  sortQ (wavs_outside ++ wavs_inside)

/-- The unified wavelength grid both merge functions build (source lines
228–240 and 313–325): the sorted union of all segments' samples, then the
grid-rebuild loop applied for each overlap range in order. -/
def new_spectral_axis (ss : List Segment) : List ℚ :=
  (find_overlap_ranges ss).enum.foldl (gridStep ss) (unionAxis ss)

/-- Linear interpolation through a list of `(x, y)` knots, evaluated at `x`;
`none` outside `[x₀, x_last]` (models `fill_value=np.nan`).  The knot list is
assumed ascending, which all call sites guarantee for well-formed segments. -/
def interpPts : List (ℚ × ℚ) → ℚ → Option ℚ
  | [], _ => none
  | [_], _ => none
  | (x0, y0) :: (x1, y1) :: rest, x =>
      if x < x0 then none
      else if x ≤ x1 then some (y0 + (y1 - y0) * (x - x0) / (x1 - x0))
      else interpPts ((x1, y1) :: rest) x

/-- `scipy.interpolate.interp1d(xs, ys, bounds_error=False, fill_value=np.nan)`:
constructing the interpolant fails (`ValueError`) unless there are at least
two samples; the returned function yields `none` (NaN) outside the covered
range. -/
def interp1d (xs ys : List ℚ) : Option (ℚ → Option ℚ) :=
  if xs.length < 2 then none
  else some (fun x => interpPts (xs.zip ys) x)

/-- Construct the interpolant for `(xs, ys)` and evaluate it at `x`. -/
def interpQ (xs ys : List ℚ) (x : ℚ) : Option ℚ :=
  (interp1d xs ys).bind (fun f => f x)

/-- Median of an already ascending list, averaging the middle two for even
length; `none` for the empty list. -/
def medianSorted (v : List ℚ) : Option ℚ :=
  if v.length = 0 then none
  else if v.length % 2 = 1 then some (v.getD (v.length / 2) 0)
  else some ((v.getD (v.length / 2 - 1) 0 + v.getD (v.length / 2) 0) / 2)

/-- `np.nanmedian` over one column: drop the NaNs (`none`s), take the median
of the rest; all-NaN gives NaN. -/
def nanmedian (l : List (Option ℚ)) : Option ℚ :=
  medianSorted (sortQ (l.filterMap id))

/-- Column `i` of the stack of per-segment resampled arrays. -/
def colAt (rows : List (List (Option ℚ))) (i : ℕ) : List (Option ℚ) :=
  rows.map (fun row => row.getD i none)

/-- One iteration of `merge_1d`'s blending loop (source lines 264–273):
at the grid points strictly inside `(wmin, wmax)` replace the running flux by
the sliding linear blend of `flux_new[ileft]` and `flux_new[ileft + 1]`;
NaN operands (out-of-coverage interpolations) make the blend NaN. -/
def blend1dStep (grid : List ℚ) (fluxNew : List (List (Option ℚ)))
    (fluxM : List (Option ℚ)) (ir : ℕ × ℚ × ℚ) : List (Option ℚ) :=
  let fL := fluxNew.getD ir.1 []
  let fR := fluxNew.getD (ir.1 + 1) []
  (List.range grid.length).map fun i =>
    let w := grid.getD i 0
    if decide (ir.2.1 < w) && decide (w < ir.2.2) then
      match fL.getD i none, fR.getD i none with
      | some a, some b =>
          let t := (w - ir.2.1) / (ir.2.2 - ir.2.1)
          some ((1 - t) * a + t * b)
      | _, _ => none
    else fluxM.getD i none

/-- `merge_1d`'s uncertainty combination at column `i` (source lines
275–277): `sqrt(nansum(u²)) / count`, stored squared, i.e.
`nansum(u²) / count²`; a zero count (`0/0` in numpy) is NaN. -/
def unc1dCol (rows : List (List (Option ℚ))) (i : ℕ) : Option ℚ :=
  let fin := (colAt rows i).filterMap id
  let s := fin.foldl (fun acc u => acc + u * u) 0
  if fin.length = 0 then none else some (s / ((fin.length : ℚ) * (fin.length : ℚ)))

/-- Result of `merge_1d`: spectral axis, flux (with possible NaN entries) and
squared uncertainty. -/
structure Merged1 where
  axis : List ℚ
  flux : List (Option ℚ)
  unc2 : List (Option ℚ)
deriving DecidableEq, Repr

/-- `merge_1d` (source lines 206–281).  `none` models the exceptions raised
for an empty segment list (`np.concatenate([])`, `ss[0]`) or a segment with
fewer than two samples (`interp1d` construction). -/
def merge_1d (ss : List Segment) : Option Merged1 := do
  let _ ← ss.head?
  let grid := new_spectral_axis ss
  let ranges := find_overlap_ranges ss
  let ffns ← ss.mapM (fun s => interp1d s.spectral_axis s.flux)
  let ufns ← ss.mapM (fun s => interp1d s.spectral_axis s.uncertainty)
  let fluxNew := ffns.map (fun f => grid.map f)
  let uncNew := ufns.map (fun f => grid.map f)
  let flux0 := (List.range grid.length).map (fun i => nanmedian (colAt fluxNew i))
  let fluxM := ranges.enum.foldl (blend1dStep grid fluxNew) flux0
  let unc2 := (List.range grid.length).map (fun i => unc1dCol uncNew i)
  pure ⟨grid, fluxM, unc2⟩

/-! ### `merge_nd_memfriendly` (source lines 284–433)

Arrays over the unified grid are `List ℚ` of the grid's length; an array
covering only a wavelength mask is the list of values at the masked grid
points in order.  numpy's shape rules for 1-D arrays are reproduced exactly:
a binary operation requires equal lengths or a length-1 operand (which
broadcasts), and a masked assignment requires the value list to have exactly
the mask's count of entries or length 1. -/

/-- `new_wav_mask` (source lines 332–336) as a predicate on wavelengths:
grid point `w` is covered by segment `s`. -/
def inCover (s : Segment) (w : ℚ) : Bool :=
  decide (sHead s ≤ w) && decide (w ≤ sLast s)

/-- The grid points covered by a wavelength mask, in grid order. -/
def maskVals (grid : List ℚ) (p : ℚ → Bool) : List ℚ := grid.filter p

/-- The product `sliding_weight * cube_slice` of source lines 411/413/416/417.
The cubes have shape `(n_wav, 1, 1)` here (one spatial pixel, spectral axis
first), so a wavelength slice of a cube is a column `c` of shape `(K, 1, 1)`,
while the sliding weight `w` is a plain 1-D array of shape `(N,)`.  numpy
aligns trailing axes, reads `w` as `(1, 1, N)`, and broadcasts the product to
shape `(K, 1, N)`: entry `(i, 0, j)` is `w j * c i`.  The result is the list
of rows (their common length, the third-axis extent `N`, is `w.length`). -/
def cubeMul (w : List ℚ) (c : List ℚ) : List (List ℚ) :=
  c.map (fun x => w.map (fun t => t * x))

/-- Addition of two broadcast products of shapes `(K, 1, N)` and `(K', 1, N)`
(both third-axis extents come from the same sliding weight): numpy requires
the first-axis extents to be equal or one of them to be `1`; otherwise the
addition itself raises a shape error. -/
def cubeAdd (a b : List (List ℚ)) : Option (List (List ℚ)) :=
  if a.length = b.length then
    some (List.zipWith (fun ra rb => List.zipWith (· + ·) ra rb) a b)
  else if a.length = 1 then some (b.map (fun rb => List.zipWith (· + ·) (a.headD []) rb))
  else if b.length = 1 then some (a.map (fun ra => List.zipWith (· + ·) ra (b.headD [])))
  else none

/-- Python slice `[-n:]` (note `[-0:]` is the whole list). -/
def lastSlice (n : ℕ) (xs : List ℚ) : List ℚ :=
  if n = 0 then xs else xs.drop (xs.length - n)

/-- Python slice `[:n]`. -/
def firstSlice (n : ℕ) (xs : List ℚ) : List ℚ := xs.take n

/-- Recursion for `maskWrite`, consuming one value per masked position. -/
def maskWriteGo : List ℚ → List ℚ → (ℚ → Bool) → List ℚ → List ℚ
  | [], _, _, _ => []
  | x :: xs, [], _, _ => x :: xs
  | x :: xs, g :: gs, p, vals =>
      if p g then vals.headD 0 :: maskWriteGo xs gs p vals.tail
      else x :: maskWriteGo xs gs p vals

/-- Masked assignment `xs[mask] = vals`, where position `i` of `xs`
corresponds to `grid[i]` and the mask is `p` evaluated on the grid:
the value count must equal the mask count, or be 1 (scalar broadcast);
otherwise numpy raises a shape error. -/
def maskWrite (xs grid : List ℚ) (p : ℚ → Bool) (vals : List ℚ) : Option (List ℚ) :=
  if vals.length = (grid.filter p).length then some (maskWriteGo xs grid p vals)
  else if vals.length = 1 then
    some ((xs.zip grid).map (fun t => if p t.2 then vals.headD 0 else t.1))
  else none

/-- The masked assignment of a blended value cube (source lines 409/415):
the target slice `flux_merged[wslice(wmask_overlap)]` has shape `(N, 1, 1)`
with `N` the mask's count, while the assigned value has shape
`(val.length, 1, ncols)` (`ncols` is the sliding-weight length, the common
row length of `val`).  numpy broadcasts the value onto the target, so each
of its axes must be `1` or match: the third axis forces `ncols = 1`, and the
first axis must be `N` or `1` (a single row is repeated).  On a shape
mismatch the assignment raises.  The surviving values are written into `xs`
at the masked positions. -/
def cubeWrite (xs grid : List ℚ) (p : ℚ → Bool) (ncols : ℕ)
    (val : List (List ℚ)) : Option (List ℚ) :=
  if ncols = 1 then
    if val.length = (grid.filter p).length then
      some (maskWriteGo xs grid p (val.map (fun r => r.headD 0)))
    else if val.length = 1 then
      some (maskWriteGo xs grid p
        (List.replicate (grid.filter p).length ((val.headD []).headD 0)))
    else none
  else none

/-- `interp_f` / the inner interpolation of `interp_u2` (source lines
349–366): interpolate `ys` over segment `s`'s samples and evaluate at the
grid points covered by `s`.  Fails like `interp1d` for short segments. -/
def interpSeg (s : Segment) (ys : List ℚ) (grid : List ℚ) : Option (List ℚ) := do
  let f ← interp1d s.spectral_axis ys
  (maskVals grid (inCover s)).mapM f

/-- Loop state of `merge_nd_memfriendly`'s pairwise pass: the index of the
next right-hand segment, the current left segment (standing for
`wmask_left`), its resampled flux and squared uncertainty, and the running
output buffers. -/
structure NState where
  iright : ℕ
  sL : Segment
  fluxL : List ℚ
  unc2L : List ℚ
  fluxM : List ℚ
  unc2M : List ℚ

/-- One iteration of the pairwise loop (source lines 391–427): resample the
right segment and write it into the buffers (an exact-count masked write of
a `(K, 1, 1)` cube), then overwrite the points covered by both segments with
the sliding blend of the *last N* points of the left arrays and the *first
N* points of the right arrays.  The blend multiplies the `(N,)`-shaped
sliding weight with `(·, 1, 1)`-shaped cube slices, which broadcasts to
shape `(·, 1, N)` (`cubeMul`), and the masked assignment of that value back
into the `(N, 1, 1)` overlap slice (`cubeWrite`) raises a shape error
whenever `N ≠ 1`. -/
def ndStep (ss : List Segment) (grid : List ℚ) (st : NState) (r : ℚ × ℚ) :
    Option NState := do
  let sR := ss.getD st.iright default
  let fluxR ← interpSeg sR sR.flux grid
  let unc2R0 ← interpSeg sR sR.uncertainty grid
  let unc2R := unc2R0.map (fun u => u * u)
  let fluxM1 ← maskWrite st.fluxM grid (inCover sR) fluxR
  let unc2M1 ← maskWrite st.unc2M grid (inCover sR) unc2R
  let pOv : ℚ → Bool := fun w => inCover st.sL w && inCover sR w
  let tw := (maskVals grid pOv).map (fun w => (w - r.1) / (r.2 - r.1))
  let n := tw.length
  let fbl ← cubeAdd (cubeMul (tw.map (fun t => 1 - t)) (lastSlice n st.fluxL))
    (cubeMul tw (firstSlice n fluxR))
  let fluxM2 ← cubeWrite fluxM1 grid pOv n fbl
  let ubl ← cubeAdd (cubeMul (tw.map (fun t => 1 - t)) (lastSlice n st.unc2L))
    (cubeMul tw (firstSlice n unc2R))
  let unc2M2 ← cubeWrite unc2M1 grid pOv n ubl
  pure ⟨st.iright + 1, sR, fluxR, unc2R, fluxM2, unc2M2⟩

/-- Result of `merge_nd_memfriendly`: spectral axis, flux, and the squared
uncertainty buffer `unc2_merged` (the returned uncertainty is its
elementwise square root, see `mergedUnc`). -/
structure MergedN where
  axis : List ℚ
  flux : List ℚ
  unc2 : List ℚ
deriving DecidableEq, Repr

/-- `merge_nd_memfriendly` (source lines 284–433).  `check_spectral_axis_index`
only validates FITS metadata and is a no-op here, but like the code it
touches `ss[0]`, so the empty list fails.  The buffers start as zeros, the
first segment is written in, and the pairwise loop runs over the overlap
ranges. -/
def merge_nd_memfriendly (ss : List Segment) : Option MergedN := do
  let s0 ← ss.head?
  let grid := new_spectral_axis ss
  let fluxL ← interpSeg s0 s0.flux grid
  let unc2L0 ← interpSeg s0 s0.uncertainty grid
  let unc2L := unc2L0.map (fun u => u * u)
  let zeros := grid.map (fun _ => (0 : ℚ))
  let fluxM ← maskWrite zeros grid (inCover s0) fluxL
  let unc2M ← maskWrite zeros grid (inCover s0) unc2L
  let fin ← (find_overlap_ranges ss).foldlM (ndStep ss grid) ⟨1, s0, fluxL, unc2L, fluxM, unc2M⟩
  pure ⟨grid, fin.fluxM, fin.unc2M⟩

/-- The uncertainty `merge_nd_memfriendly` returns:
`StdDevUncertainty(np.sqrt(unc2_merged))` (source line 432). -/
noncomputable def mergedUnc (m : MergedN) : List ℝ :=
  m.unc2.map (fun q => Real.sqrt (q : ℝ))

/-- `np.cumsum` with explicit running sum. -/
def cumsum : List ℚ → ℚ → List ℚ
  | [], _ => []
  | x :: xs, acc => (acc + x) :: cumsum xs (acc + x)

/-- `shifts_to_offsets` (source lines 130–148): `offsets = [0, cumsum…]`,
then subtract the reference segment's offset. -/
def shifts_to_offsets (shifts : List ℚ) (reference_segment_index : ℕ) : List ℚ :=
  let offsets := 0 :: cumsum shifts 0
  offsets.map (fun x => x - offsets.getD reference_segment_index 0)

/-- `extract_overlapping_data` (source lines 57–84).  The source passes the
boolean mask `(axis >= v1) & (axis <= v2)` to `np.take`, which interprets
booleans as the integer indices 0 and 1; the extracted "overlap" data is
therefore `flux[1]` where the mask is true and `flux[0]` where it is false,
one entry per wavelength sample.  That behaviour is reproduced here.
The `enumerate` index over the ranges list indexes `ss` directly, as in the
source. -/
def extract_overlapping_data (ss : List Segment) : List (List ℚ × List ℚ) :=
  (find_overlap_ranges ss).enum.map (fun ir =>
    let takeB (s : Segment) : List ℚ :=
      s.spectral_axis.map (fun w =>
        s.flux.getD (if decide (ir.2.1 ≤ w) && decide (w ≤ ir.2.2) then 1 else 0) 0)
    (takeB (ss.getD ir.1 default), takeB (ss.getD (ir.1 + 1) default)))

/-- `np.nanpercentile(l, p)` with the default linear interpolation method
(no NaNs can occur in rational data): sort, take the fractional order
statistic at `h = p/100 · (n-1)`.  Empty data gives NaN (`none`). -/
def percentileQ (l : List ℚ) (p : ℚ) : Option ℚ :=
  let v := sortQ l
  if v.length = 0 then none
  else
    let h : ℚ := p / 100 * ((v.length - 1 : ℕ) : ℚ)
    let j := Int.toNat ⌊h⌋
    let lo := v.getD j 0
    some (lo + (h - (⌊h⌋ : ℚ)) * (v.getD (j + 1) lo - lo))

/-- Line 98 of the source reads `spindex = ss.spectral_axis_index`, but `ss`
is the *list* of segments, not a single spectrum; a Python list has no
`spectral_axis_index` attribute, so the lookup raises `AttributeError`
before any statistic is computed.  The failed attribute lookup is modelled
as `none`. -/
def listSpectralAxisIndex (ss : List Segment) : Option ℕ := none

/-- The shifts `overlap_shifts` would compute past line 98 (source lines
99–127, `full_output=False` branch): per overlap region, the percentile of
the left extracted data minus the percentile of the right extracted data.
This is dead code in the source — the function aborts at line 98 — and is
modelled for completeness; the `getD 0` defaults are never exercised for
segments with data. -/
def overlapShiftsBody (ss : List Segment) (percentile : ℚ) : List ℚ :=
  (extract_overlapping_data ss).map (fun pr =>
    (percentileQ pr.1 percentile).getD 0 - (percentileQ pr.2 percentile).getD 0)

/-- `overlap_shifts` (source lines 87–127): the attribute error at line 98
aborts the call unconditionally. -/
def overlap_shifts (ss : List Segment) (percentile : ℚ) : Option (List ℚ) :=
  (listSpectralAxisIndex ss).map (fun _ => overlapShiftsBody ss percentile)

/-! ### The spec's concrete two-segment scenario (§8) -/

/-- Segment A of the spec's concrete scenario: axis `[1, 2, 3, 4]`,
flux `[10, 10, 10, 10]`, uncertainty `[1, 1, 1, 1]`. -/
def segA : Segment := ⟨[1, 2, 3, 4], [10, 10, 10, 10], [1, 1, 1, 1]⟩

/-- Segment B of the spec's concrete scenario: axis `[3, 3.5, 4, 5]`,
flux `[20, 20, 20, 20]`, uncertainty `[2, 2, 2, 2]`. -/
def segB : Segment := ⟨[3, 3.5, 4, 5], [20, 20, 20, 20], [2, 2, 2, 2]⟩

/-! ### Validity of a segment list

The merge functions document their preconditions: the segments are sorted,
each spectral axis is ascending, each segment has enough samples for
`interp1d`, flux/uncertainty have the axis's length, and — per
`find_overlap_ranges`'s docstring — "each spectral segment overlaps only
with the previous and the next in the list". -/

/-- A kernel-computable `Decidable` instance for `List.Chain'` (the library
instance is built by tactics and does not reduce under `decide`). -/
instance (priority := 2000) instDecChainPrime {α : Type} {R : α → α → Prop}
    [i : DecidableRel R] : (l : List α) → Decidable (l.Chain' R)
  | [] => isTrue (by simp)
  | [_] => isTrue (by simp)
  | a :: b :: rest =>
      match i a b, instDecChainPrime (b :: rest) with
      | isTrue h1, isTrue h2 => isTrue (List.chain'_cons.mpr ⟨h1, h2⟩)
      | isFalse h1, _ => isFalse (fun hc => h1 (List.chain'_cons.mp hc).1)
      | _, isFalse h2 => isFalse (fun hc => h2 (List.chain'_cons.mp hc).2)

/-- A well-formed segment: at least two samples (required by `interp1d`),
strictly ascending spectral axis, flux and uncertainty of matching length. -/
def Segment.wf (s : Segment) : Prop :=
  2 ≤ s.spectral_axis.length ∧ s.spectral_axis.Chain' (· < ·) ∧
    s.flux.length = s.spectral_axis.length ∧
    s.uncertainty.length = s.spectral_axis.length

instance (s : Segment) : Decidable s.wf :=
  inferInstanceAs (Decidable (2 ≤ s.spectral_axis.length ∧ s.spectral_axis.Chain' (· < ·) ∧
    s.flux.length = s.spectral_axis.length ∧ s.uncertainty.length = s.spectral_axis.length))

/-- Two consecutive sorted segments that genuinely overlap: the right one
starts strictly later, starts strictly before the left one ends, and ends
strictly later. -/
def ValidChain (a b : Segment) : Prop :=
  sHead a < sHead b ∧ sHead b < sLast a ∧ sLast a < sLast b

instance : DecidableRel ValidChain := fun a b =>
  inferInstanceAs (Decidable (sHead a < sHead b ∧ sHead b < sLast a ∧ sLast a < sLast b))

/-- Segments at distance two (and hence further, given sortedness) are
strictly disjoint: each segment overlaps only its immediate neighbours. -/
def NbrOnly : List Segment → Prop
  | a :: b :: c :: rest => sLast a < sHead c ∧ NbrOnly (b :: c :: rest)
  | _ => True

instance instDecidableNbrOnly : (ss : List Segment) → Decidable (NbrOnly ss)
  | [] => isTrue trivial
  | [_] => isTrue trivial
  | [_, _] => isTrue trivial
  | a :: b :: c :: rest =>
      have : Decidable (NbrOnly (b :: c :: rest)) := instDecidableNbrOnly (b :: c :: rest)
      inferInstanceAs (Decidable (sLast a < sHead c ∧ NbrOnly (b :: c :: rest)))

/-- The chain conditions of a (possibly empty) valid segment list. -/
def GoodChain (ss : List Segment) : Prop :=
  (∀ s ∈ ss, s.wf) ∧ ss.Chain' ValidChain ∧ NbrOnly ss

instance (ss : List Segment) : Decidable (GoodChain ss) :=
  inferInstanceAs (Decidable ((∀ s ∈ ss, s.wf) ∧ ss.Chain' ValidChain ∧ NbrOnly ss))

/-- A valid input to the merge: nonempty, well-formed, sorted with every
consecutive pair strictly overlapping, and overlap only between
neighbours. -/
def Valid (ss : List Segment) : Prop := ss ≠ [] ∧ GoodChain ss

instance (ss : List Segment) : Decidable (Valid ss) :=
  inferInstanceAs (Decidable (ss ≠ [] ∧ GoodChain ss))

/-! ### Proof-side descriptions of the grid-rebuild loop -/

/-- The overlap range a consecutive pair of segments produces. -/
def rangeOf (p : Segment × Segment) : ℚ × ℚ := (sHead p.2, sLast p.1)

/-- The grid-rebuild loop rephrased over consecutive segment pairs, without
the re-sorting (the result is a permutation of the running axis at each
step). -/
def gridFoldPairs : List ℚ → List (Segment × Segment) → List ℚ
  | ax, [] => ax
  | ax, (a, b) :: rest =>
      gridFoldPairs
        (ax.filter (fun w => decide (w < sHead b) || decide (sLast a < w))
          ++ a.spectral_axis.filter (fun w => decide (sHead b < w) && decide (w < sLast a)))
        rest

/-- Closed form of the rebuilt grid for a valid chain, as a concatenation of
blocks: what remains of the running head segment below the next overlap,
then the head segment's samples strictly inside the overlap, then the rest
with the next segment cut down to its part above the overlap. -/
def answerList : Segment → List Segment → List ℚ → List ℚ
  | _, [], x => x
  | a, b :: rest, x =>
      x.filter (fun w => decide (w < sHead b))
        ++ a.spectral_axis.filter (fun w => decide (sHead b < w) && decide (w < sLast a))
        ++ answerList b rest (b.spectral_axis.filter (fun w => decide (sLast a < w)))

/-- The rational value of the linear interpolation, defaulting to `0`
outside coverage (only used where coverage holds). -/
def interpVal (xs ys : List ℚ) (x : ℚ) : ℚ := (interpQ xs ys x).getD 0

/-- The values segment `s`'s interpolant of `ys` takes at the grid points
`s` covers — what `interp_f` computes. -/
def coverVals (grid : List ℚ) (s : Segment) (ys : List ℚ) : List ℚ :=
  (grid.filter (inCover s)).map (fun w => interpVal s.spectral_axis ys w)

/-- The sliding blend weight: `0` at `wmin`, `1` at `wmax`. -/
def slidingT (wmin wmax w : ℚ) : ℚ := (w - wmin) / (wmax - wmin)

/-- The `k`-th segment of the sorted list (out-of-range indices never occur
where this is used). -/
def segAt (ss : List Segment) (k : ℕ) : Segment := ss.getD k default

/-- The claimed blended flux at `w` inside the overlap of `sL` (left) and
`sR` (right): `(1-t)·flux_left(w) + t·flux_right(w)` with the sliding
weight `t` running from `0` at `wmin = sHead sR` to `1` at
`wmax = sLast sL`, and the fluxes linearly interpolated. -/
def blendF (sL sR : Segment) (w : ℚ) : ℚ :=
  (1 - slidingT (sHead sR) (sLast sL) w) * interpVal sL.spectral_axis sL.flux w
    + slidingT (sHead sR) (sLast sL) w * interpVal sR.spectral_axis sR.flux w

/-- The claimed blended squared uncertainty at `w`:
`(1-t)·unc2_left(w) + t·unc2_right(w)`, each `unc2` the square of the
linearly interpolated standard-deviation uncertainty. -/
def blendU2 (sL sR : Segment) (w : ℚ) : ℚ :=
  (1 - slidingT (sHead sR) (sLast sL) w) *
      (interpVal sL.spectral_axis sL.uncertainty w *
        interpVal sL.spectral_axis sL.uncertainty w)
    + slidingT (sHead sR) (sLast sL) w *
      (interpVal sR.spectral_axis sR.uncertainty w *
        interpVal sR.spectral_axis sR.uncertainty w)

/-- Buffers `F` (flux) and `U` (squared uncertainty) hold the claimed blend
values at every grid point strictly inside the overlap range of segments
`k` and `k + 1`. -/
def blendedAt (ss : List Segment) (grid F U : List ℚ) (k : ℕ) : Prop :=
  ∀ i, i < grid.length → sHead (segAt ss (k + 1)) < grid.getD i 0 →
    grid.getD i 0 < sLast (segAt ss k) →
    F.getD i 0 = blendF (segAt ss k) (segAt ss (k + 1)) (grid.getD i 0) ∧
    U.getD i 0 = blendU2 (segAt ss k) (segAt ss (k + 1)) (grid.getD i 0)

/-! ### Concrete inputs for counterexamples and witnesses -/

/-- Touching pair, first segment: the last sample of `sd0` equals the first
sample of `sd1`. -/
def sd0 : Segment := ⟨[1, 2], [5, 5], [1, 1]⟩

/-- Touching pair, second segment. -/
def sd1 : Segment := ⟨[2, 3], [6, 6], [1, 1]⟩

/-- Triple for the merge-equivalence counterexample: `s0t` strictly overlaps
`s1t` on `(1, 2)` with exactly one rebuilt-grid point (`1.5`) inside, so the
N-d blend assignment is shape-compatible and the merge really returns; `s1t`
only *touches* `s2t` at `3`, so that pair emits no overlap range and the
pairwise loop — which advances its right-hand index once per *range*, not
once per pair — terminates without ever writing `s2t`. -/
def s0t : Segment := ⟨[0, 1.5, 2], [10, 10, 10], [1, 1, 1]⟩

/-- Middle segment of the triple: overlaps `s0t`, touches `s2t`. -/
def s1t : Segment := ⟨[1, 3], [20, 20], [2, 2]⟩

/-- Right segment of the triple: never written by the pairwise loop. -/
def s2t : Segment := ⟨[3, 5], [30, 30], [3, 3]⟩

/-- Tie-breaking counterexample, first segment: same first wavelength as
`sB1`. -/
def sA1 : Segment := ⟨[0, 1, 5], [10, 10, 10], [1, 1, 1]⟩

/-- Tie-breaking counterexample, second segment. -/
def sB1 : Segment := ⟨[0, 3, 5], [20, 20, 20], [2, 2, 2]⟩

/-- Witness pair for the blend-formula theorem: `sA4` has the sample `3.5`
strictly inside the overlap `(3, 4)` with `sB4`. -/
def sA4 : Segment := ⟨[0, 3.5, 4], [10, 12, 14], [1, 1, 1]⟩

/-- Witness pair, right segment. -/
def sB4 : Segment := ⟨[3, 5], [20, 20], [2, 2]⟩

/-!
# Theorems

Each claim's theorem carries its claim id in the doc comment.  Supporting
lemmas come first.
-/

/-- Claim C1: The spec's concrete scenario, as the code actually computes it:
the overlap finder returns exactly `[(3, 4)]`, but the grid-rebuild step
removes every sample in the closed range `[3, 4]` and segment A has no
sample strictly inside `(3, 4)`, so the merged axis is `[1, 2, 5]` with
flux `[10, 10, 20]` and uncertainty `[1, 1, 2]` (squared: `[1, 1, 4]`).
`merge_nd_memfriendly` does not even run on this input: its blending step
broadcasts a length-0 weight array against the two left-hand points and
numpy raises a shape error. -/
theorem c1_concrete_scenario :
    sort [segA, segB] = [segA, segB] ∧
    find_overlap_ranges [segA, segB] = [(3, 4)] ∧
    merge_1d [segA, segB] =
      some ⟨[1, 2, 5], [some 10, some 10, some 20], [some 1, some 1, some 4]⟩ ∧
    merge_nd_memfriendly [segA, segB] = none := by decide

/-- Claim C1 (counterexample): The claim's expected merged axis
`[1, 2, 3, 3.5, 4, 5]` is not what `merge_1d` produces on the scenario's
segments. -/
theorem c1_claimed_axis_false :
    (merge_1d [segA, segB]).map Merged1.axis ≠ some [1, 2, 3, 3.5, 4, 5] := by decide

/-- Claim C2 (counterexample): On the (valid) concrete scenario, the samples
`3` (= wmin, a sample of segment B) and `4` (= wmax, a sample of segment A)
are removed from the merged spectral axis, not retained: the grid-rebuild
filter keeps only points strictly outside the closed overlap range and
re-inserts only points strictly inside it. -/
theorem c2_boundaries_dropped_concrete :
    Valid [segA, segB] ∧
    find_overlap_ranges [segA, segB] = [(3, 4)] ∧
    (3 : ℚ) ∈ segB.spectral_axis ∧ (4 : ℚ) ∈ segA.spectral_axis ∧
    (3 : ℚ) ∉ new_spectral_axis [segA, segB] ∧
    (4 : ℚ) ∉ new_spectral_axis [segA, segB] := by decide

/-- Claim C3 (counterexample): Two well-formed segments that share one sample
exactly (last of the left = first of the right = `2`) produce no overlap
range, and the unified axis `[1, 2, 2, 3]` keeps both copies of the shared
sample: it is not strictly ascending. -/
theorem c3_touching_duplicate :
    sd0.wf ∧ sd1.wf ∧ sLast sd0 = sHead sd1 ∧
    find_overlap_ranges [sd0, sd1] = [] ∧
    new_spectral_axis [sd0, sd1] = [1, 2, 2, 3] ∧
    ¬ (new_spectral_axis [sd0, sd1]).Chain' (· < ·) := by decide

/-- Claim C6 (counterexample): Sorting an empty segment collection returns the
empty list — Python's `sorted([])` succeeds — rather than signalling an
error. -/
theorem c6_sort_empty_returns_value : sort ([] : List Segment) = [] := by decide

/-- Claim C6: What actually happens on empty input: the sorter returns `[]`
without error, while both merge functions fail (they index `ss[0]`,
respectively concatenate an empty list of arrays). -/
theorem c6_empty_input_behaviour :
    sort ([] : List Segment) = [] ∧
    merge_1d [] = none ∧
    merge_nd_memfriendly [] = none := by decide

/-- Claim C8: `overlap_shifts` never returns a value: line 98 reads
`ss.spectral_axis_index` on the segment *list*, which raises
`AttributeError` before any statistic is computed. -/
theorem c8_overlap_shifts_raises (ss : List Segment) (percentile : ℚ) :
    overlap_shifts ss percentile = none := rfl

theorem cumsum_length (l : List ℚ) (acc : ℚ) : (cumsum l acc).length = l.length := by
  induction l generalizing acc with
  | nil => rfl
  | cons x xs ih => simp [cumsum, ih]

theorem cumsum_getD_succ (l : List ℚ) (acc : ℚ) (i : ℕ) (h : i < l.length) :
    (acc :: cumsum l acc).getD (i + 1) 0 - (acc :: cumsum l acc).getD i 0 = l.getD i 0 := by
  induction l generalizing acc i with
  | nil => simp at h
  | cons x xs ih =>
    cases i with
    | zero => simp [cumsum]
    | succ j =>
      have hj : j < xs.length := by simpa using h
      simpa [cumsum] using ih (acc + x) j hj

theorem getD_map_sub (l : List ℚ) (c : ℚ) (i : ℕ) (h : i < l.length) :
    (l.map (fun x => x - c)).getD i 0 = l.getD i 0 - c := by
  induction l generalizing i with
  | nil => simp at h
  | cons x xs ih =>
    cases i with
    | zero => simp
    | succ j => simpa using ih j (by simpa using h)

/-- Claim C9: `shifts_to_offsets` turns `N-1` shifts into `N` offsets: the result
has length `N`, its entry at the reference index is exactly zero, and
consecutive differences reproduce the shifts. -/
theorem c9_shifts_to_offsets_spec (shifts : List ℚ) (r : ℕ)
    (hr : r < shifts.length + 1) :
    (shifts_to_offsets shifts r).length = shifts.length + 1 ∧
    (shifts_to_offsets shifts r).getD r 0 = 0 ∧
    ∀ i, i < shifts.length →
      (shifts_to_offsets shifts r).getD (i + 1) 0
        - (shifts_to_offsets shifts r).getD i 0 = shifts.getD i 0 := by
  have holen : (0 :: cumsum shifts 0 : List ℚ).length = shifts.length + 1 := by
    simp [cumsum_length]
  refine ⟨?_, ?_, ?_⟩
  · simp [shifts_to_offsets, cumsum_length]
  · rw [shifts_to_offsets]
    rw [getD_map_sub _ _ r (by rw [holen]; exact hr)]
    ring
  · intro i hi
    rw [shifts_to_offsets]
    rw [getD_map_sub _ _ (i + 1) (by rw [holen]; omega),
      getD_map_sub _ _ i (by rw [holen]; omega)]
    have := cumsum_getD_succ shifts 0 i hi
    ring_nf
    ring_nf at this
    linarith

/-- Claim C9 (witness): Shifts `[1, 2]` with reference index `1` give offsets
`[-1, 0, 2]`. -/
theorem c9_witness :
    1 < ([1, 2] : List ℚ).length + 1 ∧
    ((shifts_to_offsets [1, 2] 1).length = ([1, 2] : List ℚ).length + 1 ∧
      (shifts_to_offsets [1, 2] 1).getD 1 0 = 0 ∧
      ∀ i, i < ([1, 2] : List ℚ).length →
        (shifts_to_offsets [1, 2] 1).getD (i + 1) 0
          - (shifts_to_offsets [1, 2] 1).getD i 0 = ([1, 2] : List ℚ).getD i 0) :=
  ⟨by decide, c9_shifts_to_offsets_spec [1, 2] 1 (by decide)⟩

/-- Claim C10: Every range the overlap finder emits satisfies `wmin < wmax` (it
is emitted only when the left segment's last wavelength strictly exceeds the
right segment's first), so the blend-weight denominator `wmax - wmin` is
never zero. -/
theorem c10_overlap_ranges_nondegenerate (ss : List Segment) (r : ℚ × ℚ)
    (hr : r ∈ find_overlap_ranges ss) : r.1 < r.2 ∧ r.2 - r.1 ≠ 0 := by
  induction ss with
  | nil => simp [find_overlap_ranges] at hr
  | cons a tail ih =>
    cases tail with
    | nil => simp [find_overlap_ranges] at hr
    | cons b rest =>
      rw [find_overlap_ranges] at hr
      rcases List.mem_append.mp hr with h1 | h2
      · by_cases hov : sHead b < sLast a
        · rw [if_pos hov] at h1
          simp only [List.mem_singleton] at h1
          subst h1
          exact ⟨hov, sub_ne_zero.mpr (ne_of_gt hov)⟩
        · rw [if_neg hov] at h1
          simp at h1
      · exact ih h2

/-- Claim C10 (witness): The scenario's emitted range `(3, 4)` is nondegenerate. -/
theorem c10_witness :
    ((3 : ℚ), (4 : ℚ)) ∈ find_overlap_ranges [segA, segB] ∧
    ((3 : ℚ) < 4 ∧ (4 : ℚ) - 3 ≠ 0) :=
  ⟨by decide, c10_overlap_ranges_nondegenerate [segA, segB] (3, 4) (by decide)⟩

theorem merge_1d_axis_eq (ss : List Segment) (m : Merged1)
    (h : merge_1d ss = some m) : m.axis = new_spectral_axis ss := by
  simp only [merge_1d, bind, Option.bind_eq_some, Option.pure_def, Option.some.injEq] at h
  obtain ⟨s0, hs0, ffns, hf, ufns, hu, hm⟩ := h
  rw [← hm]

theorem merge_nd_axis_eq (ss : List Segment) (m : MergedN)
    (h : merge_nd_memfriendly ss = some m) : m.axis = new_spectral_axis ss := by
  simp only [merge_nd_memfriendly, bind, Option.bind_eq_some, Option.pure_def,
    Option.some.injEq] at h
  obtain ⟨s0, hs0, fl, hfl, ul, hul, fm, hfm, um, hum, fin, hfin, hm⟩ := h
  rw [← hm]

/-- Claim C5 (counterexample): A sorted list of three well-formed segments on
which both merges return a result, with equal spectral axes but different
flux (and different uncertainty).  The single overlap range `(1, 2)` — from
the pair `s0t`, `s1t` — holds exactly one rebuilt-grid point, so every
masked assignment of `merge_nd_memfriendly` is shape-compatible and it
returns; but `s1t` and `s2t` merely touch at `3`, so no range is emitted
for them, and the pairwise loop — which advances its right-hand index once
per *range*, not once per pair — terminates before ever writing `s2t`: its
region keeps the initial zeros.  `merge_1d`'s median-based combination uses
all three segments, and its quadrature uncertainty also differs from the
blended squared uncertainty at the overlap point. -/
theorem c5_counterexample :
    sort [s0t, s1t, s2t] = [s0t, s1t, s2t] ∧
    merge_1d [s0t, s1t, s2t] =
      some ⟨[0, 3/2, 3, 3, 5], [some 10, some 15, some 25, some 25, some 30],
        [some 1, some (5/4), some (13/4), some (13/4), some 9]⟩ ∧
    merge_nd_memfriendly [s0t, s1t, s2t] =
      some ⟨[0, 3/2, 3, 3, 5], [10, 15, 20, 20, 0], [1, 5/2, 4, 4, 0]⟩ ∧
    ([some 10, some 15, some 25, some 25, some 30] : List (Option ℚ)) ≠
      ([10, 15, 20, 20, 0] : List ℚ).map some ∧
    ([some 1, some (5/4), some (13/4), some (13/4), some 9] : List (Option ℚ)) ≠
      ([1, 5/2, 4, 4, 0] : List ℚ).map some := by decide

/-- Claim C5: What does hold of the two implementations on every input where both
return a result: the merged spectral axes agree (both run the identical
grid-construction code). -/
theorem c5_axes_agree (ss : List Segment) (m1 : Merged1) (mN : MergedN)
    (h1 : merge_1d ss = some m1) (hN : merge_nd_memfriendly ss = some mN) :
    m1.axis = mN.axis := by
  rw [merge_1d_axis_eq ss m1 h1, merge_nd_axis_eq ss mN hN]

/-- Claim C5 (witness): The axis agreement evaluated on the counterexample
triple, on which both merges genuinely return. -/
theorem c5_axes_agree_witness :
    merge_1d [s0t, s1t, s2t] =
      some ⟨[0, 3/2, 3, 3, 5], [some 10, some 15, some 25, some 25, some 30],
        [some 1, some (5/4), some (13/4), some (13/4), some 9]⟩ ∧
    merge_nd_memfriendly [s0t, s1t, s2t] =
      some ⟨[0, 3/2, 3, 3, 5], [10, 15, 20, 20, 0], [1, 5/2, 4, 4, 0]⟩ ∧
    (Merged1.mk [0, 3/2, 3, 3, 5] [some 10, some 15, some 25, some 25, some 30]
        [some 1, some (5/4), some (13/4), some (13/4), some 9]).axis =
      (MergedN.mk [0, 3/2, 3, 3, 5] [10, 15, 20, 20, 0] [1, 5/2, 4, 4, 0]).axis :=
  ⟨by decide, by decide,
    c5_axes_agree [s0t, s1t, s2t] _ _ (by decide) (by decide)⟩

theorem insertLe_perm {α : Type} (le : α → α → Bool) (x : α) (l : List α) :
    (insertLe le x l).Perm (x :: l) := by
  induction l with
  | nil => exact List.Perm.refl _
  | cons y ys ih =>
    rw [insertLe]
    by_cases h : le x y
    · rw [if_pos h]
    · rw [if_neg h]
      exact (ih.cons y).trans (List.Perm.swap x y ys)

theorem isort_perm {α : Type} (le : α → α → Bool) (l : List α) :
    (isort le l).Perm l := by
  induction l with
  | nil => exact List.Perm.refl _
  | cons x xs ih =>
    have hrw : isort le (x :: xs) = insertLe le x (isort le xs) := rfl
    rw [hrw]
    exact (insertLe_perm le x (isort le xs)).trans (ih.cons x)

theorem insertLe_pairwise {α : Type} (le : α → α → Bool)
    (total : ∀ a b, le a b ∨ le b a)
    (trans : ∀ a b c, le a b → le b c → le a c) (x : α) (l : List α)
    (hl : l.Pairwise (fun a b => le a b)) :
    (insertLe le x l).Pairwise (fun a b => le a b) := by
  induction l with
  | nil => simp [insertLe]
  | cons y ys ih =>
    rw [List.pairwise_cons] at hl
    rw [insertLe]
    by_cases h : le x y
    · rw [if_pos h]
      refine List.pairwise_cons.mpr ⟨?_, List.pairwise_cons.mpr hl⟩
      intro b hb
      rcases List.mem_cons.mp hb with rfl | hb2
      · exact h
      · exact trans x y b h (hl.1 b hb2)
    · rw [if_neg h]
      have hyx : le y x := (total x y).resolve_left h
      refine List.pairwise_cons.mpr ⟨?_, ih hl.2⟩
      intro b hb
      rcases List.mem_cons.mp ((insertLe_perm le x ys).mem_iff.mp hb) with rfl | hb2
      · exact hyx
      · exact hl.1 b hb2

theorem isort_pairwise {α : Type} (le : α → α → Bool)
    (total : ∀ a b, le a b ∨ le b a)
    (trans : ∀ a b c, le a b → le b c → le a c) (l : List α) :
    (isort le l).Pairwise (fun a b => le a b) := by
  induction l with
  | nil => simp [isort]
  | cons x xs ih => exact insertLe_pairwise le total trans x (isort le xs) ih

theorem sort_perm (ss : List Segment) : (sort ss).Perm ss := isort_perm _ ss

theorem sort_pairwise (ss : List Segment) :
    (sort ss).Pairwise (fun a b => sHead a ≤ sHead b) := by
  have h := isort_pairwise (fun a b : Segment => decide (sHead a ≤ sHead b))
    (fun a b => by
      rcases le_total (sHead a) (sHead b) with hh | hh
      · exact Or.inl (decide_eq_true hh)
      · exact Or.inr (decide_eq_true hh))
    (fun a b c hab hbc =>
      decide_eq_true (le_trans (of_decide_eq_true hab) (of_decide_eq_true hbc))) ss
  exact h.imp (fun hab => of_decide_eq_true hab)

/-- Claim C7 (counterexample): Two well-formed segments with the *same* first
wavelength: the stable sort leaves each input order unchanged, and the two
orders merge to different results (the overlap range, and with it the whole
grid, depends on which of the tied segments comes first). -/
theorem c7_counterexample :
    sA1.wf ∧ sB1.wf ∧ List.Perm [sA1, sB1] [sB1, sA1] ∧
    sort [sA1, sB1] = [sA1, sB1] ∧ sort [sB1, sA1] = [sB1, sA1] ∧
    merge_nd_memfriendly (sort [sA1, sB1]) ≠
      merge_nd_memfriendly (sort [sB1, sA1]) :=
  ⟨by decide, by decide, List.Perm.swap sB1 sA1 [], by decide, by decide, by decide⟩

/-- Claim C7: Order independence of sort-then-merge holds whenever the segments'
first wavelengths are pairwise distinct: any two permutations of the same
collection sort to the *same* list, hence merge identically. -/
theorem c7_sort_merge_order_independent (p1 p2 : List Segment)
    (hperm : p1.Perm p2) (hnd : (p1.map sHead).Nodup) :
    sort p1 = sort p2 ∧
      merge_nd_memfriendly (sort p1) = merge_nd_memfriendly (sort p2) := by
  have hkey : sort p1 = sort p2 := by
    have hp : (sort p1).Perm (sort p2) :=
      ((sort_perm p1).trans hperm).trans (sort_perm p2).symm
    have hnd1 : ((sort p1).map sHead).Nodup :=
      (((sort_perm p1).map sHead).nodup_iff).mpr hnd
    have hnd2 : ((sort p2).map sHead).Nodup :=
      ((hp.map sHead).nodup_iff).mp hnd1
    have hne1 : (sort p1).Pairwise (fun a b => sHead a ≠ sHead b) :=
      (List.pairwise_map).mp hnd1
    have hne2 : (sort p2).Pairwise (fun a b => sHead a ≠ sHead b) :=
      (List.pairwise_map).mp hnd2
    have hlt1 : (sort p1).Pairwise (fun a b => sHead a < sHead b) :=
      ((sort_pairwise p1).and hne1).imp (fun hh => lt_of_le_of_ne hh.1 hh.2)
    have hlt2 : (sort p2).Pairwise (fun a b => sHead a < sHead b) :=
      ((sort_pairwise p2).and hne2).imp (fun hh => lt_of_le_of_ne hh.1 hh.2)
    haveI : IsAntisymm Segment (fun a b => sHead a < sHead b) :=
      ⟨fun a b hh hh' => absurd hh' (lt_asymm hh)⟩
    exact List.eq_of_perm_of_sorted hp hlt1 hlt2
  exact ⟨hkey, by rw [hkey]⟩

/-- Claim C7 (witness): Order independence on the two orders of the concrete
scenario's segments, whose first wavelengths `1` and `3` are distinct. -/
theorem c7_witness :
    List.Perm [segA, segB] [segB, segA] ∧ ([segA, segB].map sHead).Nodup ∧
    (sort [segA, segB] = sort [segB, segA] ∧
      merge_nd_memfriendly (sort [segA, segB]) =
        merge_nd_memfriendly (sort [segB, segA])) :=
  ⟨List.Perm.swap segB segA [], by decide,
    c7_sort_merge_order_independent [segA, segB] [segB, segA]
      (List.Perm.swap segB segA []) (by decide)⟩

theorem pairwise_le_getLastD (l : List ℚ) (hl : l.Pairwise (· ≤ ·)) :
    ∀ w ∈ l, w ≤ l.getLastD 0 := by
  induction l with
  | nil => simp
  | cons x t ih =>
    intro w hw
    rcases List.mem_cons.mp hw with rfl | hwt
    · cases t with
      | nil => simp
      | cons y u =>
        have hxy : w ≤ y := (List.pairwise_cons.mp hl).1 y (by simp)
        have := ih (List.pairwise_cons.mp hl).2 y (by simp)
        calc w ≤ y := hxy
          _ ≤ (y :: u).getLastD 0 := this
          _ = (w :: y :: u).getLastD 0 := by simp
    · cases t with
      | nil => simp at hwt
      | cons y u =>
        have := ih (List.pairwise_cons.mp hl).2 w hwt
        calc w ≤ (y :: u).getLastD 0 := this
          _ = (x :: y :: u).getLastD 0 := by simp

theorem headD_le_of_pairwise (l : List ℚ) (hl : l.Pairwise (· ≤ ·)) :
    ∀ w ∈ l, l.headD 0 ≤ w := by
  cases l with
  | nil => simp
  | cons x t =>
    intro w hw
    rcases List.mem_cons.mp hw with rfl | hwt
    · simp
    · simpa using (List.pairwise_cons.mp hl).1 w hwt

theorem wf_pairwise_lt (s : Segment) (hs : s.wf) :
    s.spectral_axis.Pairwise (· < ·) :=
  (List.chain'_iff_pairwise).mp hs.2.1

theorem wf_bounds (s : Segment) (hs : s.wf) :
    ∀ w ∈ s.spectral_axis, sHead s ≤ w ∧ w ≤ sLast s := by
  intro w hw
  have hp : s.spectral_axis.Pairwise (· ≤ ·) :=
    (wf_pairwise_lt s hs).imp le_of_lt
  exact ⟨headD_le_of_pairwise _ hp w hw, pairwise_le_getLastD _ hp w hw⟩

theorem sHead_mem (s : Segment) (hs : s.wf) : sHead s ∈ s.spectral_axis := by
  obtain ⟨h2, _, _, _⟩ := hs
  cases hax : s.spectral_axis with
  | nil => rw [hax] at h2; simp at h2
  | cons x t => simp [sHead, hax]

theorem sLast_mem (s : Segment) (hs : s.wf) : sLast s ∈ s.spectral_axis := by
  obtain ⟨h2, _, _, _⟩ := hs
  cases hax : s.spectral_axis with
  | nil => rw [hax] at h2; simp at h2
  | cons x t =>
    rw [sLast, hax]
    rw [List.getLastD_eq_getLast?, List.getLast?_eq_getLast (x :: t) (by simp)]
    simp [List.getLast_mem]

theorem sHead_lt_sLast (s : Segment) (hs : s.wf) : sHead s < sLast s := by
  have h2 := hs.1
  have hp := wf_pairwise_lt s hs
  have hple : s.spectral_axis.Pairwise (· ≤ ·) := hp.imp le_of_lt
  cases hax : s.spectral_axis with
  | nil => rw [hax] at h2; simp at h2
  | cons x t =>
    cases t with
    | nil => rw [hax] at h2; simp at h2
    | cons y u =>
      rw [hax] at hp hple
      have hxy : x < y := (List.pairwise_cons.mp hp).1 y (by simp)
      have hy : y ≤ (x :: y :: u).getLastD 0 :=
        pairwise_le_getLastD _ hple y (by simp)
      rw [sHead, sLast, hax]
      simp only [List.headD_cons]
      exact lt_of_lt_of_le hxy hy

theorem goodChain_tail (a : Segment) (rest : List Segment)
    (h : GoodChain (a :: rest)) : GoodChain rest := by
  obtain ⟨hwf, hchain, hnbr⟩ := h
  refine ⟨fun s hsmem => hwf s (by simp [hsmem]), hchain.tail, ?_⟩
  match rest, hnbr with
  | [], _ => trivial
  | [b], _ => trivial
  | b :: c :: rest', hn =>
    exact hn.2

theorem heads_bound (a b : Segment) (rest : List Segment)
    (h : GoodChain (a :: b :: rest)) :
    ∀ t ∈ rest, sLast a < sHead t ∧ sHead b < sHead t := by
  induction rest generalizing a b with
  | nil => simp
  | cons c rest' ih =>
    intro t ht
    have hac : sLast a < sHead c := h.2.2.1
    have hbc : sHead b < sHead c := by
      have h1 := h.2.1
      rw [List.chain'_cons, List.chain'_cons] at h1
      exact h1.2.1.1
    rcases List.mem_cons.mp ht with rfl | ht'
    · exact ⟨hac, hbc⟩
    · have htail : GoodChain (b :: c :: rest') := goodChain_tail a _ h
      have := ih b c htail t ht'
      have hbl : sLast b < sLast c ∨ True := Or.inr trivial
      constructor
      · -- sLast a < sHead t : from sLast a < sLast b? no: use sLast a < sHead c ≤ ... ?
        -- ih gives sLast b < sHead t ∧ sHead c < sHead t
        calc sLast a < sHead c := hac
          _ < sHead t := this.2
      · calc sHead b < sHead c := hbc
          _ < sHead t := this.2

theorem find_overlap_ranges_eq_of_chain (ss : List Segment)
    (h : ss.Chain' ValidChain) :
    find_overlap_ranges ss = (ss.zip ss.tail).map rangeOf := by
  induction ss with
  | nil => rfl
  | cons a tail ih =>
    cases tail with
    | nil => rfl
    | cons b rest =>
      rw [List.chain'_cons] at h
      rw [find_overlap_ranges, if_pos h.1.2.1]
      have := ih h.2
      simp only [List.zip_cons_cons, List.tail_cons, List.map_cons] at this ⊢
      rw [this]
      rfl

theorem sortQ_perm (l : List ℚ) : (sortQ l).Perm l := isort_perm _ l

theorem sortQ_pairwise (l : List ℚ) : (sortQ l).Pairwise (· ≤ ·) := by
  have h := isort_pairwise (fun a b : ℚ => decide (a ≤ b))
    (fun a b => by
      rcases le_total a b with hh | hh
      · exact Or.inl (decide_eq_true hh)
      · exact Or.inr (decide_eq_true hh))
    (fun a b c hab hbc =>
      decide_eq_true (le_trans (of_decide_eq_true hab) (of_decide_eq_true hbc))) l
  exact h.imp (fun hab => of_decide_eq_true hab)

theorem gridFoldPairs_congr (ax ax' : List ℚ) (ps : List (Segment × Segment))
    (h : ax.Perm ax') : (gridFoldPairs ax ps).Perm (gridFoldPairs ax' ps) := by
  induction ps generalizing ax ax' with
  | nil => exact h
  | cons p rest ih =>
    obtain ⟨a, b⟩ := p
    rw [gridFoldPairs, gridFoldPairs]
    exact ih _ _ ((h.filter _).append_right _)

theorem foldl_gridStep_congr (ss : List Segment) (l : List (ℕ × ℚ × ℚ))
    (ax ax' : List ℚ) (h : ax.Perm ax') :
    (l.foldl (gridStep ss) ax).Perm (l.foldl (gridStep ss) ax') := by
  induction l generalizing ax ax' with
  | nil => exact h
  | cons e rest ih =>
    rw [List.foldl_cons, List.foldl_cons]
    refine ih _ _ ?_
    rw [gridStep, gridStep]
    exact ((sortQ_perm _).trans ((h.filter _).append_right _)).trans (sortQ_perm _).symm

theorem gridStep_shift (a : Segment) (tail : List Segment) (ax : List ℚ)
    (i : ℕ) (r : ℚ × ℚ) :
    gridStep (a :: tail) ax (i + 1, r) = gridStep tail ax (i, r) := by
  rw [gridStep, gridStep]
  simp [List.getD_cons_succ]

theorem foldl_enumFrom_shift (a : Segment) (tail : List Segment) :
    ∀ (l : List (ℚ × ℚ)) (n : ℕ) (st : List ℚ),
    (List.enumFrom (n + 1) l).foldl (gridStep (a :: tail)) st =
      (List.enumFrom n l).foldl (gridStep tail) st
  | [], _, _ => rfl
  | r :: rest, n, st => by
    rw [List.enumFrom_cons, List.enumFrom_cons, List.foldl_cons, List.foldl_cons,
      gridStep_shift a tail st n r]
    exact foldl_enumFrom_shift a tail rest (n + 1) _

theorem enumFold_perm : ∀ (ss : List Segment) (init : List ℚ),
    ((((ss.zip ss.tail).map rangeOf).enum).foldl (gridStep ss) init).Perm
      (gridFoldPairs init (ss.zip ss.tail))
  | [], init => by simp [gridFoldPairs]
  | [a], init => by simp [gridFoldPairs]
  | a :: b :: rest, init => by
    have hzip : ((a :: b :: rest).zip (a :: b :: rest).tail) =
        (a, b) :: ((b :: rest).zip rest) := by simp
    rw [hzip]
    rw [List.map_cons, List.enum_cons, List.foldl_cons]
    rw [foldl_enumFrom_shift a (b :: rest) _ 0 _]
    have henum : List.enumFrom 0 (((b :: rest).zip rest).map rangeOf) =
        (((b :: rest).zip rest).map rangeOf).enum := rfl
    rw [henum]
    refine ((enumFold_perm (b :: rest) _).trans ?_)
    have hstep : gridStep (a :: b :: rest) init (0, rangeOf (a, b)) =
        sortQ ((init.filter (fun w => decide (w < sHead b) || decide (sLast a < w)))
          ++ a.spectral_axis.filter
              (fun w => decide (sHead b < w) && decide (w < sLast a))) := rfl
    rw [gridFoldPairs]
    exact gridFoldPairs_congr _ _ _ (hstep ▸ sortQ_perm _)

theorem new_spectral_axis_perm_pairsFold (ss : List Segment)
    (hchain : ss.Chain' ValidChain) :
    (new_spectral_axis ss).Perm
      (gridFoldPairs (ss.flatMap Segment.spectral_axis) (ss.zip ss.tail)) := by
  rw [new_spectral_axis, find_overlap_ranges_eq_of_chain ss hchain]
  exact (foldl_gridStep_congr ss _ _ _ (sortQ_perm _)).trans (enumFold_perm ss _)

theorem gridFoldPairs_extend (P : List ℚ) :
    ∀ (ps : List (Segment × Segment)) (ax : List ℚ),
    (∀ w ∈ P, ∀ pr ∈ ps, w < sHead pr.2) →
    gridFoldPairs (P ++ ax) ps = P ++ gridFoldPairs ax ps
  | [], ax, _ => rfl
  | (a, b) :: rest, ax, h => by
    rw [gridFoldPairs, List.filter_append]
    have hP : P.filter (fun w => decide (w < sHead b) || decide (sLast a < w)) = P := by
      rw [List.filter_eq_self]
      intro w hw
      have : w < sHead b := h w hw (a, b) (by simp)
      simp [this]
    rw [hP, List.append_assoc]
    rw [gridFoldPairs_extend P rest _ (fun w hw pr hpr => h w hw pr (by simp [hpr]))]
    rw [gridFoldPairs]

theorem gridFoldPairs_char : ∀ (rest : List Segment) (a : Segment) (X : List ℚ),
    GoodChain (a :: rest) → (∀ w ∈ X, w ≤ sLast a) →
    (gridFoldPairs (X ++ rest.flatMap Segment.spectral_axis)
      ((a :: rest).zip rest)).Perm (answerList a rest X)
  | [], a, X, _, _ => by simp [gridFoldPairs, answerList]
  | b :: rest', a, X, hg, hX => by
    have hzip : ((a :: b :: rest').zip (b :: rest')) =
        (a, b) :: ((b :: rest').zip rest') := rfl
    rw [hzip, gridFoldPairs]
    have hsplit : (X ++ (b :: rest').flatMap Segment.spectral_axis) =
        X ++ b.spectral_axis ++ rest'.flatMap Segment.spectral_axis := by simp
    rw [hsplit, List.filter_append, List.filter_append]
    have hXf : X.filter (fun w => decide (w < sHead b) || decide (sLast a < w)) =
        X.filter (fun w => decide (w < sHead b)) := by
      apply List.filter_congr
      intro w hw
      have h1 : ¬ (sLast a < w) := not_lt.mpr (hX w hw)
      simp [h1]
    have hBf : b.spectral_axis.filter
        (fun w => decide (w < sHead b) || decide (sLast a < w)) =
        b.spectral_axis.filter (fun w => decide (sLast a < w)) := by
      apply List.filter_congr
      intro w hw
      have hwfb : b.wf := hg.1 b (by simp)
      have h1 : ¬ (w < sHead b) := not_lt.mpr (wf_bounds b hwfb w hw).1
      simp [h1]
    have hRf : (rest'.flatMap Segment.spectral_axis).filter
        (fun w => decide (w < sHead b) || decide (sLast a < w)) =
        rest'.flatMap Segment.spectral_axis := by
      rw [List.filter_eq_self]
      intro w hw
      obtain ⟨t, ht, hwt⟩ := List.mem_flatMap.mp hw
      have hwft : t.wf := hg.1 t (by simp [ht])
      have hlt : sLast a < sHead t := (heads_bound a b rest' hg t ht).1
      have h2 : sLast a < w := lt_of_lt_of_le hlt (wf_bounds t hwft w hwt).1
      simp [h2]
    rw [hXf, hBf, hRf]
    set Xf := X.filter (fun w => decide (w < sHead b)) with hXfdef
    set Bf := b.spectral_axis.filter (fun w => decide (sLast a < w)) with hBfdef
    set Rf := rest'.flatMap Segment.spectral_axis with hRfdef
    set Ia := a.spectral_axis.filter
      (fun w => decide (sHead b < w) && decide (w < sLast a)) with hIadef
    have hrearr : (Xf ++ Bf ++ Rf ++ Ia).Perm ((Xf ++ Ia) ++ (Bf ++ Rf)) := by
      have e1 : Xf ++ Bf ++ Rf ++ Ia = Xf ++ (Bf ++ Rf ++ Ia) := by
        simp [List.append_assoc]
      have e2 : (Xf ++ Ia) ++ (Bf ++ Rf) = Xf ++ (Ia ++ (Bf ++ Rf)) := by
        simp [List.append_assoc]
      rw [e1, e2]
      refine List.Perm.append_left Xf ?_
      exact List.perm_append_comm
    have hcond : ∀ w ∈ Xf ++ Ia, ∀ pr ∈ ((b :: rest').zip rest'), w < sHead pr.2 := by
      intro w hw pr hpr
      obtain ⟨p, q⟩ := pr
      have hq : q ∈ rest' := (List.of_mem_zip hpr).2
      have hb := heads_bound a b rest' hg q hq
      rcases List.mem_append.mp hw with h1 | h2
      · have hwb : w < sHead b := by
          have := (List.mem_filter.mp h1).2
          simpa using this
        exact lt_trans hwb hb.2
      · have hwa : w < sLast a := by
          have := (List.mem_filter.mp h2).2
          simp only [Bool.and_eq_true, decide_eq_true_eq] at this
          exact this.2
        exact lt_trans hwa hb.1
    refine (gridFoldPairs_congr _ _ _ hrearr).trans ?_
    rw [gridFoldPairs_extend (Xf ++ Ia) ((b :: rest').zip rest') (Bf ++ Rf) hcond]
    have hBbounds : ∀ w ∈ Bf, w ≤ sLast b := by
      intro w hw
      have hwfb : b.wf := hg.1 b (by simp)
      exact (wf_bounds b hwfb w (List.mem_filter.mp hw).1).2
    have hIH := gridFoldPairs_char rest' b Bf (goodChain_tail a _ hg) hBbounds
    rw [answerList]
    exact hIH.append_left (Xf ++ Ia)

theorem answerList_lb : ∀ (rest : List Segment) (a : Segment) (X : List ℚ) (c : ℚ),
    GoodChain (a :: rest) → (∀ w ∈ X, c < w) → (∀ t ∈ rest, c < sHead t) →
    ∀ w ∈ answerList a rest X, c < w
  | [], _, X, _, _, hX, _ => by
    intro w hw
    rw [answerList] at hw
    exact hX w hw
  | b :: rest', a, X, c, hg, hX, hheads => by
    intro w hw
    rw [answerList] at hw
    rcases List.mem_append.mp hw with h12 | h3
    · rcases List.mem_append.mp h12 with h1 | h2
      · exact hX w (List.mem_filter.mp h1).1
      · have hmem := List.mem_filter.mp h2
        have hcb : c < sHead b := hheads b (by simp)
        have hbw : sHead b < w := by
          have := hmem.2
          simp only [Bool.and_eq_true, decide_eq_true_eq] at this
          exact this.1
        exact lt_trans hcb hbw
    · have hwfb : b.wf := hg.1 b (by simp)
      refine answerList_lb rest' b _ c (goodChain_tail a _ hg) ?_ ?_ w h3
      · intro v hv
        have hvb : sHead b ≤ v := (wf_bounds b hwfb v (List.mem_filter.mp hv).1).1
        exact lt_of_lt_of_le (hheads b (by simp)) hvb
      · intro t ht
        exact hheads t (by simp [ht])

theorem answerList_nodup : ∀ (rest : List Segment) (a : Segment) (X : List ℚ),
    GoodChain (a :: rest) → X.Nodup → (∀ w ∈ X, w ≤ sLast a) →
    (answerList a rest X).Nodup
  | [], _, X, _, hXn, _ => by
    rw [answerList]
    exact hXn
  | b :: rest', a, X, hg, hXn, hX => by
    rw [answerList]
    have hwfa : a.wf := hg.1 a (by simp)
    have hwfb : b.wf := hg.1 b (by simp)
    have haxn : a.spectral_axis.Nodup := (wf_pairwise_lt a hwfa).imp ne_of_lt
    have hbxn : b.spectral_axis.Nodup := (wf_pairwise_lt b hwfb).imp ne_of_lt
    have hrecnd : (answerList b rest' (b.spectral_axis.filter
        (fun w => decide (sLast a < w)))).Nodup := by
      refine answerList_nodup rest' b _ (goodChain_tail a _ hg) (hbxn.filter _) ?_
      intro w hw
      exact (wf_bounds b hwfb w (List.mem_filter.mp hw).1).2
    have hreclb : ∀ w ∈ answerList b rest' (b.spectral_axis.filter
        (fun w => decide (sLast a < w))), sLast a < w := by
      refine answerList_lb rest' b _ (sLast a) (goodChain_tail a _ hg) ?_ ?_
      · intro v hv
        have := (List.mem_filter.mp hv).2
        simpa using this
      · intro t ht
        exact (heads_bound a b rest' hg t ht).1
    rw [List.nodup_append]
    refine ⟨?_, hrecnd, ?_⟩
    · rw [List.nodup_append]
      refine ⟨hXn.filter _, haxn.filter _, ?_⟩
      intro w hw hw'
      have h1 : w < sHead b := by
        have := (List.mem_filter.mp hw).2
        simpa using this
      have h2 : sHead b < w := by
        have := (List.mem_filter.mp hw').2
        simp only [Bool.and_eq_true, decide_eq_true_eq] at this
        exact this.1
      exact absurd h2 (not_lt.mpr (le_of_lt h1))
    · intro w hw hw'
      have hla : sLast a < w := hreclb w hw'
      rcases List.mem_append.mp hw with h1 | h2
      · have : w ≤ sLast a := hX w (List.mem_filter.mp h1).1
        exact absurd hla (not_lt.mpr this)
      · have : w < sLast a := by
          have := (List.mem_filter.mp h2).2
          simp only [Bool.and_eq_true, decide_eq_true_eq] at this
          exact this.2
        exact absurd hla (not_lt.mpr (le_of_lt this))

theorem answerList_filter : ∀ (rest : List Segment) (a : Segment) (X : List ℚ),
    GoodChain (a :: rest) → (∀ w ∈ X, w ≤ sLast a) →
    ∀ pr ∈ (a :: rest).zip rest,
      (answerList a rest X).filter
        (fun w => decide (sHead pr.2 ≤ w) && decide (w ≤ sLast pr.1)) =
      pr.1.spectral_axis.filter
        (fun w => decide (sHead pr.2 < w) && decide (w < sLast pr.1))
  | [], _, _, _, _ => by simp
  | b :: rest', a, X, hg, hX => by
    intro pr hpr
    have hwfb : b.wf := hg.1 b (by simp)
    have hzip : ((a :: b :: rest').zip (b :: rest')) =
        (a, b) :: ((b :: rest').zip rest') := rfl
    rw [hzip] at hpr
    have hreclb : ∀ w ∈ answerList b rest' (b.spectral_axis.filter
        (fun w => decide (sLast a < w))), sLast a < w := by
      refine answerList_lb rest' b _ (sLast a) (goodChain_tail a _ hg) ?_ ?_
      · intro v hv
        have := (List.mem_filter.mp hv).2
        simpa using this
      · intro t ht
        exact (heads_bound a b rest' hg t ht).1
    rcases List.mem_cons.mp hpr with rfl | hpr'
    · rw [answerList, List.filter_append, List.filter_append]
      have hXnil : (X.filter (fun w => decide (w < sHead b))).filter
          (fun w => decide (sHead b ≤ w) && decide (w ≤ sLast a)) = [] := by
        rw [List.filter_eq_nil_iff]
        intro w hw
        have h1 : w < sHead b := by
          have := (List.mem_filter.mp hw).2
          simpa using this
        simp [not_le.mpr h1]
      have hIself : (a.spectral_axis.filter
          (fun w => decide (sHead b < w) && decide (w < sLast a))).filter
          (fun w => decide (sHead b ≤ w) && decide (w ≤ sLast a)) =
          a.spectral_axis.filter
            (fun w => decide (sHead b < w) && decide (w < sLast a)) := by
        rw [List.filter_eq_self]
        intro w hw
        have := (List.mem_filter.mp hw).2
        simp only [Bool.and_eq_true, decide_eq_true_eq] at this
        simp [le_of_lt this.1, le_of_lt this.2]
      have hrecnil : (answerList b rest' (b.spectral_axis.filter
          (fun w => decide (sLast a < w)))).filter
          (fun w => decide (sHead b ≤ w) && decide (w ≤ sLast a)) = [] := by
        rw [List.filter_eq_nil_iff]
        intro w hw
        have := hreclb w hw
        simp [not_le.mpr this]
      rw [hXnil, hIself, hrecnil]
      simp
    · obtain ⟨p, q⟩ := pr
      have hq : q ∈ rest' := (List.of_mem_zip hpr').2
      have hbq : sHead b < sHead q ∧ sLast a < sHead q :=
        ⟨(heads_bound a b rest' hg q hq).2, (heads_bound a b rest' hg q hq).1⟩
      rw [answerList, List.filter_append, List.filter_append]
      have hXnil : (X.filter (fun w => decide (w < sHead b))).filter
          (fun w => decide (sHead q ≤ w) && decide (w ≤ sLast p)) = [] := by
        rw [List.filter_eq_nil_iff]
        intro w hw
        have h1 : w < sHead b := by
          have := (List.mem_filter.mp hw).2
          simpa using this
        have : w < sHead q := lt_trans h1 hbq.1
        simp [not_le.mpr this]
      have hInil : (a.spectral_axis.filter
          (fun w => decide (sHead b < w) && decide (w < sLast a))).filter
          (fun w => decide (sHead q ≤ w) && decide (w ≤ sLast p)) = [] := by
        rw [List.filter_eq_nil_iff]
        intro w hw
        have h2 : w < sLast a := by
          have := (List.mem_filter.mp hw).2
          simp only [Bool.and_eq_true, decide_eq_true_eq] at this
          exact this.2
        have : w < sHead q := lt_trans h2 hbq.2
        simp [not_le.mpr this]
      have hrec := answerList_filter rest' b
        (b.spectral_axis.filter (fun w => decide (sLast a < w)))
        (goodChain_tail a _ hg)
        (fun w hw => (wf_bounds b hwfb w (List.mem_filter.mp hw).1).2)
        (p, q) hpr'
      rw [hXnil, hInil, hrec]
      simp

theorem foldl_gridStep_sorted (ss : List Segment) :
    ∀ (l : List (ℕ × ℚ × ℚ)) (init : List ℚ), init.Pairwise (· ≤ ·) →
    (l.foldl (gridStep ss) init).Pairwise (· ≤ ·)
  | [], _, h => h
  | _ :: rest, init, _ =>
    foldl_gridStep_sorted ss rest _ (by rw [gridStep]; exact sortQ_pairwise _)

theorem new_spectral_axis_sorted (ss : List Segment) :
    (new_spectral_axis ss).Pairwise (· ≤ ·) :=
  foldl_gridStep_sorted ss _ _ (sortQ_pairwise _)

theorem valid_grid_perm_answer (a : Segment) (rest : List Segment)
    (hg : GoodChain (a :: rest)) :
    (new_spectral_axis (a :: rest)).Perm (answerList a rest a.spectral_axis) := by
  have hwfa : a.wf := hg.1 a (by simp)
  refine (new_spectral_axis_perm_pairsFold _ hg.2.1).trans ?_
  have hchar := gridFoldPairs_char rest a a.spectral_axis hg
    (fun w hw => (wf_bounds a hwfa w hw).2)
  have heq : ((a :: rest).flatMap Segment.spectral_axis) =
      a.spectral_axis ++ rest.flatMap Segment.spectral_axis := by simp
  have heq2 : ((a :: rest).zip (a :: rest).tail) = ((a :: rest).zip rest) := rfl
  rw [heq, heq2]
  exact hchar

theorem chain'_zip {R : Segment → Segment → Prop} :
    ∀ (ss : List Segment), ss.Chain' R →
    ∀ pr ∈ ss.zip ss.tail, R pr.1 pr.2
  | [], _, pr, hpr => by simp at hpr
  | [_], _, pr, hpr => by simp at hpr
  | a :: b :: rest, h, pr, hpr => by
    rw [List.chain'_cons] at h
    have hzip : ((a :: b :: rest).zip (a :: b :: rest).tail) =
        (a, b) :: ((b :: rest).zip rest) := rfl
    rw [hzip] at hpr
    rcases List.mem_cons.mp hpr with rfl | hpr'
    · exact h.1
    · exact chain'_zip (b :: rest) h.2 pr hpr'

/-- Claim C3: For valid input (well-formed segments, sorted, every consecutive
pair strictly overlapping, overlap only between neighbours) the unified
wavelength axis is strictly ascending — in particular duplicate-free. -/
theorem c3_grid_strictly_ascending (ss : List Segment) (hv : Valid ss) :
    (new_spectral_axis ss).Chain' (· < ·) := by
  obtain ⟨hne, hg⟩ := hv
  obtain ⟨a, rest, rfl⟩ : ∃ a rest, ss = a :: rest := by
    cases ss with
    | nil => exact absurd rfl hne
    | cons a rest => exact ⟨a, rest, rfl⟩
  have hwfa : a.wf := hg.1 a (by simp)
  have hperm := valid_grid_perm_answer a rest hg
  have hnd : (answerList a rest a.spectral_axis).Nodup :=
    answerList_nodup rest a _ hg ((wf_pairwise_lt a hwfa).imp ne_of_lt)
      (fun w hw => (wf_bounds a hwfa w hw).2)
  have hndg : (new_spectral_axis (a :: rest)).Nodup := hperm.nodup_iff.mpr hnd
  have hsort := new_spectral_axis_sorted (a :: rest)
  rw [List.chain'_iff_pairwise]
  exact (hsort.and hndg).imp (fun hh => lt_of_le_of_ne hh.1 hh.2)

theorem grid_filter_interval (ss : List Segment) (hv : Valid ss) :
    ∀ pr ∈ ss.zip ss.tail,
      (new_spectral_axis ss).filter
        (fun w => decide (sHead pr.2 ≤ w) && decide (w ≤ sLast pr.1)) =
      pr.1.spectral_axis.filter
        (fun w => decide (sHead pr.2 < w) && decide (w < sLast pr.1)) := by
  obtain ⟨hne, hg⟩ := hv
  obtain ⟨a, rest, rfl⟩ : ∃ a rest, ss = a :: rest := by
    cases ss with
    | nil => exact absurd rfl hne
    | cons a rest => exact ⟨a, rest, rfl⟩
  intro pr hpr
  have hwfa : a.wf := hg.1 a (by simp)
  have hwfp : pr.1.wf := hg.1 pr.1 (List.of_mem_zip hpr).1
  have hperm := valid_grid_perm_answer a rest hg
  have hchar := answerList_filter rest a a.spectral_axis hg
    (fun w hw => (wf_bounds a hwfa w hw).2) pr hpr
  have hpf : ((new_spectral_axis (a :: rest)).filter
      (fun w => decide (sHead pr.2 ≤ w) && decide (w ≤ sLast pr.1))).Perm
      (pr.1.spectral_axis.filter
        (fun w => decide (sHead pr.2 < w) && decide (w < sLast pr.1))) := by
    rw [← hchar]
    exact hperm.filter _
  have hs1 : ((new_spectral_axis (a :: rest)).filter
      (fun w => decide (sHead pr.2 ≤ w) && decide (w ≤ sLast pr.1))).Pairwise (· < ·) := by
    have hg3 := c3_grid_strictly_ascending (a :: rest) ⟨hne, hg⟩
    rw [List.chain'_iff_pairwise] at hg3
    exact hg3.sublist (List.filter_sublist _)
  have hs2 : (pr.1.spectral_axis.filter
      (fun w => decide (sHead pr.2 < w) && decide (w < sLast pr.1))).Pairwise (· < ·) :=
    (wf_pairwise_lt pr.1 hwfp).sublist (List.filter_sublist _)
  haveI : IsAntisymm ℚ (· < ·) := ⟨fun x y hh hh' => absurd hh' (lt_asymm hh)⟩
  exact List.eq_of_perm_of_sorted hpf hs1 hs2

/-- Claim C2: For valid input, wavelength samples exactly equal to an overlap
boundary are *removed* from the merged axis, not retained: the grid's
content inside the closed overlap range `[wmin, wmax]` is exactly the left
segment's samples *strictly* inside `(wmin, wmax)`, so neither `wmin` (a
sample of the right segment) nor `wmax` (a sample of the left segment)
appears in the merged axis. -/
theorem c2_boundary_samples_dropped (ss : List Segment) (hv : Valid ss) :
    ∀ pr ∈ ss.zip ss.tail,
      sHead pr.2 ∉ new_spectral_axis ss ∧ sLast pr.1 ∉ new_spectral_axis ss ∧
      (new_spectral_axis ss).filter
        (fun w => decide (sHead pr.2 ≤ w) && decide (w ≤ sLast pr.1)) =
      pr.1.spectral_axis.filter
        (fun w => decide (sHead pr.2 < w) && decide (w < sLast pr.1)) := by
  intro pr hpr
  have hfil := grid_filter_interval ss hv pr hpr
  have hvc : ValidChain pr.1 pr.2 := chain'_zip ss hv.2.2.1 pr hpr
  refine ⟨?_, ?_, hfil⟩
  · intro hmem
    have hin : sHead pr.2 ∈ (new_spectral_axis ss).filter
        (fun w => decide (sHead pr.2 ≤ w) && decide (w ≤ sLast pr.1)) := by
      rw [List.mem_filter]
      exact ⟨hmem, by simp [le_refl, le_of_lt hvc.2.1]⟩
    rw [hfil] at hin
    have := (List.mem_filter.mp hin).2
    simp only [Bool.and_eq_true, decide_eq_true_eq] at this
    exact absurd this.1 (lt_irrefl _)
  · intro hmem
    have hin : sLast pr.1 ∈ (new_spectral_axis ss).filter
        (fun w => decide (sHead pr.2 ≤ w) && decide (w ≤ sLast pr.1)) := by
      rw [List.mem_filter]
      exact ⟨hmem, by simp [le_refl, le_of_lt hvc.2.1]⟩
    rw [hfil] at hin
    have := (List.mem_filter.mp hin).2
    simp only [Bool.and_eq_true, decide_eq_true_eq] at this
    exact absurd this.2 (lt_irrefl _)

/-- Claim C3 (witness): Strict ascent of the unified axis on the valid concrete
scenario. -/
theorem c3_witness :
    Valid [segA, segB] ∧ (new_spectral_axis [segA, segB]).Chain' (· < ·) :=
  ⟨by decide, c3_grid_strictly_ascending [segA, segB] (by decide)⟩

/-- Claim C2 (witness): Boundary-sample removal on the valid concrete scenario:
the boundary samples `3` and `4` of the pair `(segA, segB)` are not in the
merged axis. -/
theorem c2_witness :
    Valid [segA, segB] ∧ (segA, segB) ∈ [segA, segB].zip [segA, segB].tail ∧
    (sHead segB ∉ new_spectral_axis [segA, segB] ∧
      sLast segA ∉ new_spectral_axis [segA, segB] ∧
      (new_spectral_axis [segA, segB]).filter
        (fun w => decide (sHead segB ≤ w) && decide (w ≤ sLast segA)) =
      segA.spectral_axis.filter
        (fun w => decide (sHead segB < w) && decide (w < sLast segA))) :=
  ⟨by decide, by decide,
    c2_boundary_samples_dropped [segA, segB] (by decide) (segA, segB) (by decide)⟩

theorem getD_map_q (f : ℚ → ℚ) (l : List ℚ) (c : ℕ) (h : c < l.length) (d d' : ℚ) :
    (l.map f).getD c d = f (l.getD c d') := by
  induction l generalizing c with
  | nil => simp at h
  | cons x t ih =>
    cases c with
    | zero => simp
    | succ j => simpa using ih j (by simpa using h)

theorem getD_zipWith (f : ℚ → ℚ → ℚ) (a b : List ℚ) (c : ℕ)
    (hc : c < a.length) (hlen : a.length = b.length) (d : ℚ) :
    (List.zipWith f a b).getD c d = f (a.getD c 0) (b.getD c 0) := by
  induction a generalizing b c with
  | nil => simp at hc
  | cons x t ih =>
    cases b with
    | nil => simp at hlen
    | cons y u =>
      cases c with
      | zero => simp
      | succ j =>
        simp only [List.zipWith_cons_cons, List.getD_cons_succ]
        exact ih u j (by simpa using hc) (by simpa using hlen)

theorem getLastD_zip_fst : ∀ (xs ys : List ℚ) (dx dy : ℚ),
    xs.length ≤ ys.length → ((xs.zip ys).getLastD (dx, dy)).1 = xs.getLastD dx
  | [], _, _, _, _ => by simp
  | _ :: _, [], _, _, h => by simp at h
  | x :: xs', y :: ys', dx, dy, h => by
    simp only [List.zip_cons_cons, List.getLastD_cons]
    exact getLastD_zip_fst xs' ys' x y (by simpa using h)

theorem interpPts_isSome : ∀ (ps : List (ℚ × ℚ)) (x : ℚ),
    2 ≤ ps.length → (ps.headD (0, 0)).1 ≤ x → x ≤ (ps.getLastD (0, 0)).1 →
    (interpPts ps x).isSome
  | [], _, h2, _, _ => by simp at h2
  | [_], _, h2, _, _ => by simp at h2
  | (x0, y0) :: (x1, y1) :: rest, x, _, hlo, hhi => by
    rw [interpPts]
    rw [if_neg (not_lt.mpr (by simpa using hlo))]
    by_cases hx1 : x ≤ x1
    · rw [if_pos hx1]
      simp
    · rw [if_neg hx1]
      cases rest with
      | nil =>
        exfalso
        simp only [List.getLastD_cons] at hhi
        exact hx1 (by simpa using hhi)
      | cons p rest' =>
        refine interpPts_isSome ((x1, y1) :: p :: rest') x (by simp) ?_ ?_
        · simpa using le_of_lt (not_le.mp hx1)
        · simpa using hhi

theorem headD_zip_fst (xs ys : List ℚ) (dx dy : ℚ) (hxs : xs ≠ []) (hys : ys ≠ []) :
    ((xs.zip ys).headD (dx, dy)).1 = xs.headD dx := by
  cases xs with
  | nil => simp at hxs
  | cons x t =>
    cases ys with
    | nil => simp at hys
    | cons y u => simp

theorem interpQ_isSome (xs ys : List ℚ) (x : ℚ) (h2 : 2 ≤ xs.length)
    (hlen : xs.length ≤ ys.length) (hlo : xs.headD 0 ≤ x) (hhi : x ≤ xs.getLastD 0) :
    (interpQ xs ys x).isSome := by
  rw [interpQ, interp1d, if_neg (not_lt.mpr h2)]
  refine interpPts_isSome (xs.zip ys) x ?_ ?_ ?_
  · rw [List.length_zip]
    omega
  · rw [headD_zip_fst xs ys 0 0 (by intro hh; rw [hh] at h2; simp at h2)
      (by intro hh; rw [hh] at hlen; simp only [List.length_nil, Nat.le_zero] at hlen; omega)]
    exact hlo
  · rw [getLastD_zip_fst xs ys 0 0 hlen]
    exact hhi

theorem mapM_isSome (f : ℚ → Option ℚ) : ∀ (l : List ℚ),
    (∀ x ∈ l, (f x).isSome) → l.mapM f = some (l.map (fun x => (f x).getD 0))
  | [], _ => rfl
  | x :: xs, h => by
    have hx : (f x).isSome := h x (by simp)
    obtain ⟨v, hv⟩ := Option.isSome_iff_exists.mp hx
    rw [List.mapM_cons, hv, mapM_isSome f xs (fun y hy => h y (by simp [hy]))]
    simp [hv]

theorem interpSeg_eq (s : Segment) (ys : List ℚ) (grid : List ℚ)
    (h2 : 2 ≤ s.spectral_axis.length) (hlen : s.spectral_axis.length ≤ ys.length) :
    interpSeg s ys grid = some (coverVals grid s ys) := by
  rw [interpSeg, coverVals]
  have h1d : interp1d s.spectral_axis ys =
      some (fun x => interpPts (s.spectral_axis.zip ys) x) := by
    rw [interp1d, if_neg (not_lt.mpr h2)]
  rw [h1d]
  show (maskVals grid (inCover s)).mapM (fun x => interpPts (s.spectral_axis.zip ys) x) = _
  have hsome : ∀ x ∈ maskVals grid (inCover s),
      (interpPts (s.spectral_axis.zip ys) x).isSome := by
    intro x hx
    have hcov := (List.mem_filter.mp hx).2
    rw [inCover, Bool.and_eq_true, decide_eq_true_eq, decide_eq_true_eq] at hcov
    have := interpQ_isSome s.spectral_axis ys x h2 hlen hcov.1 hcov.2
    rw [interpQ, h1d] at this
    simpa using this
  rw [mapM_isSome _ _ hsome]
  congr 1
  apply List.map_congr_left
  intro x hx
  rw [interpVal, interpQ, h1d]
  simp

theorem maskWriteGo_length : ∀ (xs grid : List ℚ) (p : ℚ → Bool) (vals : List ℚ),
    (maskWriteGo xs grid p vals).length = xs.length
  | [], _, _, _ => rfl
  | _ :: _, [], _, _ => rfl
  | x :: xs', g :: gs, p, vals => by
    rw [maskWriteGo]
    by_cases h : p g
    · rw [if_pos h]
      simp [maskWriteGo_length xs' gs p vals.tail]
    · rw [if_neg h]
      simp [maskWriteGo_length xs' gs p vals]

theorem maskWrite_some_length (xs grid : List ℚ) (p : ℚ → Bool) (vals : List ℚ)
    (r : List ℚ) (hlen : xs.length = grid.length)
    (h : maskWrite xs grid p vals = some r) : r.length = xs.length := by
  rw [maskWrite] at h
  by_cases h1 : vals.length = (grid.filter p).length
  · rw [if_pos h1] at h
    obtain rfl := Option.some.injEq _ _ ▸ h
    exact maskWriteGo_length xs grid p vals
  · rw [if_neg h1] at h
    by_cases h2 : vals.length = 1
    · rw [if_pos h2] at h
      obtain rfl := Option.some.injEq _ _ ▸ h
      simp [List.length_zip, hlen]
    · rw [if_neg h2] at h
      simp at h

theorem getD_tail (l : List ℚ) (c : ℕ) : l.tail.getD c 0 = l.getD (c + 1) 0 := by
  cases l with
  | nil => simp
  | cons x t => simp

theorem maskWriteGo_getD : ∀ (xs grid : List ℚ) (p : ℚ → Bool) (vals : List ℚ)
    (i : ℕ), xs.length = grid.length → i < grid.length →
    (maskWriteGo xs grid p vals).getD i 0 =
      if p (grid.getD i 0) then vals.getD ((grid.take i).countP p) 0
      else xs.getD i 0
  | [], grid, _, _, i, hlen, hi => by
    rw [← hlen] at hi
    simp at hi
  | _ :: _, [], _, _, i, _, hi => by simp at hi
  | x :: xs', g :: gs, p, vals, i, hlen, hi => by
    rw [maskWriteGo]
    by_cases h : p g
    · rw [if_pos h]
      cases i with
      | zero => cases vals <;> simp [h]
      | succ j =>
        have hj : j < gs.length := by simpa using hi
        rw [List.getD_cons_succ]
        rw [maskWriteGo_getD xs' gs p vals.tail j (by simpa using hlen) hj]
        have hcount : ((g :: gs).take (j + 1)).countP p =
            (gs.take j).countP p + 1 := by
          rw [List.take_succ_cons, List.countP_cons_of_pos _ _ h]
        rw [List.getD_cons_succ, hcount]
        by_cases hpj : p (gs.getD j 0)
        · rw [if_pos hpj, if_pos hpj, getD_tail]
        · rw [if_neg hpj, if_neg hpj]
          exact (List.getD_cons_succ).symm
    · rw [if_neg h]
      cases i with
      | zero => simp [h]
      | succ j =>
        have hj : j < gs.length := by simpa using hi
        rw [List.getD_cons_succ, List.getD_cons_succ]
        rw [maskWriteGo_getD xs' gs p vals j (by simpa using hlen) hj]
        have hcount : ((g :: gs).take (j + 1)).countP p = (gs.take j).countP p := by
          rw [List.take_succ_cons, List.countP_cons_of_neg _ _ (by simpa using h)]
        rw [hcount, List.getD_cons_succ]

theorem getD_map_pair (f : ℚ × ℚ → ℚ) : ∀ (l : List (ℚ × ℚ)) (i : ℕ),
    i < l.length → (l.map f).getD i 0 = f (l.getD i (0, 0))
  | [], i, h => by simp at h
  | z :: zs, 0, _ => by simp
  | z :: zs, i + 1, h => by
    simp only [List.map_cons, List.getD_cons_succ]
    exact getD_map_pair f zs i (by simpa using h)

theorem getD_zip_pair : ∀ (xs grid : List ℚ) (i : ℕ), i < xs.length →
    i < grid.length → (xs.zip grid).getD i (0, 0) = (xs.getD i 0, grid.getD i 0)
  | [], _, i, h, _ => by simp at h
  | _ :: _, [], i, _, h => by simp at h
  | x :: xs', g :: gs, 0, _, _ => by simp
  | x :: xs', g :: gs, i + 1, h1, h2 => by
    simp only [List.zip_cons_cons, List.getD_cons_succ]
    exact getD_zip_pair xs' gs i (by simpa using h1) (by simpa using h2)

theorem maskWrite_notp_getD (xs grid : List ℚ) (p : ℚ → Bool) (vals : List ℚ)
    (r : List ℚ) (hlen : xs.length = grid.length) (i : ℕ) (hi : i < grid.length)
    (hp : p (grid.getD i 0) = false)
    (h : maskWrite xs grid p vals = some r) : r.getD i 0 = xs.getD i 0 := by
  rw [maskWrite] at h
  by_cases h1 : vals.length = (grid.filter p).length
  · rw [if_pos h1] at h
    obtain rfl := Option.some.injEq _ _ ▸ h
    rw [maskWriteGo_getD xs grid p vals i hlen hi, hp]
    simp
  · rw [if_neg h1] at h
    by_cases h2 : vals.length = 1
    · rw [if_pos h2] at h
      obtain rfl := Option.some.injEq _ _ ▸ h
      have hzl : i < (xs.zip grid).length := by
        rw [List.length_zip]
        omega
      rw [getD_map_pair _ _ i hzl, getD_zip_pair xs grid i (by omega) hi]
      show (if p (grid.getD i 0) then vals.headD 0 else xs.getD i 0) = xs.getD i 0
      rw [hp]
      simp
    · rw [if_neg h2] at h
      simp at h

theorem filter_getD_countP : ∀ (l : List ℚ) (p : ℚ → Bool) (i : ℕ),
    i < l.length → p (l.getD i 0) = true →
    (l.filter p).getD ((l.take i).countP p) 0 = l.getD i 0
  | [], _, i, h, _ => by simp at h
  | x :: t, p, 0, _, hp => by
    simp only [List.getD_cons_zero] at hp ⊢
    simp [List.filter_cons, hp]
  | x :: t, p, i + 1, h, hp => by
    rw [List.getD_cons_succ] at hp ⊢
    rw [List.take_succ_cons, List.filter_cons]
    by_cases hx : p x
    · rw [List.countP_cons_of_pos _ _ hx, if_pos hx, List.getD_cons_succ]
      exact filter_getD_countP t p i (by simpa using h) hp
    · rw [List.countP_cons_of_neg _ _ (by simpa using hx), if_neg hx]
      exact filter_getD_countP t p i (by simpa using h) hp

theorem countP_take_lt (l : List ℚ) (p : ℚ → Bool) (i : ℕ) (hi : i < l.length)
    (hp : p (l.getD i 0) = true) :
    (l.take i).countP p < (l.filter p).length := by
  have hdrop : l.drop i = l.getD i 0 :: l.drop (i + 1) := by
    rw [List.getD_eq_getElem l 0 hi]
    exact List.drop_eq_getElem_cons hi
  have hsplit : l.filter p = (l.take i).filter p ++ (l.drop i).filter p := by
    rw [← List.filter_append, List.take_append_drop]
  rw [hsplit, List.length_append, ← List.countP_eq_length_filter]
  have hpos : 0 < ((l.drop i).filter p).length := by
    rw [hdrop, List.filter_cons, if_pos hp]
    simp
  omega

theorem split_filter_ge (c : ℚ) (p q : ℚ → Bool)
    (hpq : ∀ w : ℚ, p w = true → (q w = true ↔ c ≤ w)) :
    ∀ l : List ℚ, l.Pairwise (· ≤ ·) →
    l.filter p = l.filter (fun w => p w && !(q w)) ++ l.filter (fun w => p w && q w)
  | [], _ => rfl
  | x :: t, hl => by
    have hpt := (List.pairwise_cons.mp hl).1
    have ht := (List.pairwise_cons.mp hl).2
    rw [List.filter_cons, List.filter_cons, List.filter_cons]
    by_cases hx : p x
    · rw [if_pos hx]
      by_cases hq : q x
      · have hcx : c ≤ x := (hpq x hx).mp hq
        have h1 : t.filter (fun w => p w && !(q w)) = [] := by
          rw [List.filter_eq_nil_iff]
          intro w hw
          by_cases hpw : p w
          · have : q w = true := (hpq w hpw).mpr (le_trans hcx (hpt w hw))
            simp [this]
          · simp [hpw]
        have h2 : t.filter p = t.filter (fun w => p w && q w) := by
          apply List.filter_congr
          intro w hw
          by_cases hpw : p w
          · have : q w = true := (hpq w hpw).mpr (le_trans hcx (hpt w hw))
            simp [hpw, this]
          · simp [hpw]
        rw [if_neg (by simp [hx, hq]), if_pos (by simp [hx, hq]), h1, h2]
        simp
      · rw [if_pos (by simp [hx, hq]), if_neg (by simp [hx, hq])]
        rw [split_filter_ge c p q hpq t ht]
        simp
    · rw [if_neg hx, if_neg (by simp [hx]), if_neg (by simp [hx])]
      exact split_filter_ge c p q hpq t ht

theorem split_filter_le (c : ℚ) (p q : ℚ → Bool)
    (hpq : ∀ w : ℚ, p w = true → (q w = true ↔ w ≤ c)) :
    ∀ l : List ℚ, l.Pairwise (· ≤ ·) →
    l.filter p = l.filter (fun w => p w && q w) ++ l.filter (fun w => p w && !(q w))
  | [], _ => rfl
  | x :: t, hl => by
    have hpt := (List.pairwise_cons.mp hl).1
    have ht := (List.pairwise_cons.mp hl).2
    rw [List.filter_cons, List.filter_cons, List.filter_cons]
    by_cases hx : p x
    · rw [if_pos hx]
      by_cases hq : q x
      · rw [if_pos (by simp [hx, hq]), if_neg (by simp [hx, hq])]
        rw [split_filter_le c p q hpq t ht]
        simp
      · have hcx : ¬ (x ≤ c) := fun hcon => hq ((hpq x hx).mpr hcon)
        have h1 : t.filter (fun w => p w && q w) = [] := by
          rw [List.filter_eq_nil_iff]
          intro w hw
          by_cases hpw : p w
          · have hq' : q w = false := by
              rw [Bool.eq_false_iff]
              rw [Ne, hpq w hpw]
              intro hwc
              exact hcx (le_trans (hpt w hw) hwc)
            simp [hq']
          · simp [hpw]
        have h2 : t.filter p = t.filter (fun w => p w && !(q w)) := by
          apply List.filter_congr
          intro w hw
          by_cases hpw : p w
          · have hq' : q w = false := by
              rw [Bool.eq_false_iff]
              rw [Ne, hpq w hpw]
              intro hwc
              exact hcx (le_trans (hpt w hw) hwc)
            simp [hpw, hq']
          · simp [hpw]
        rw [if_neg (by simp [hx, hq]), if_pos (by simp [hx, hq]), h1, h2]
        simp
    · rw [if_neg hx, if_neg (by simp [hx]), if_neg (by simp [hx])]
      exact split_filter_le c p q hpq t ht

theorem segAt_mem (ss : List Segment) (k : ℕ) (h : k < ss.length) :
    segAt ss k ∈ ss := by
  rw [segAt, List.getD_eq_getElem ss default h]
  exact List.getElem_mem h

theorem chain'_getD {R : Segment → Segment → Prop} :
    ∀ (ss : List Segment) (k : ℕ), ss.Chain' R → k + 1 < ss.length →
    R (segAt ss k) (segAt ss (k + 1))
  | [], k, _, h => by simp at h
  | [_], k, _, h => by simp at h
  | a :: b :: rest, 0, hc, _ => by
    rw [List.chain'_cons] at hc
    exact hc.1
  | a :: b :: rest, k + 1, hc, h => by
    rw [List.chain'_cons] at hc
    have := chain'_getD (b :: rest) k hc.2 (by simpa using h)
    simpa [segAt] using this

theorem nbrOnly_getD : ∀ (ss : List Segment) (k : ℕ), NbrOnly ss →
    k + 2 < ss.length → sLast (segAt ss k) < sHead (segAt ss (k + 2))
  | [], k, _, h => by simp at h
  | [_], k, _, h => by simp at h
  | [_, _], k, _, h => by simp at h
  | a :: b :: c :: rest, 0, hn, _ => hn.1
  | a :: b :: c :: rest, k + 1, hn, h => by
    have := nbrOnly_getD (b :: c :: rest) k hn.2 (by simpa using h)
    simpa [segAt] using this

theorem sLast_mono (ss : List Segment) (hc : ss.Chain' ValidChain) :
    ∀ (d j : ℕ), j + d < ss.length → sLast (segAt ss j) ≤ sLast (segAt ss (j + d))
  | 0, j, _ => le_refl _
  | d + 1, j, h => by
    have h1 : sLast (segAt ss j) ≤ sLast (segAt ss (j + d)) :=
      sLast_mono ss hc d j (by omega)
    have h2 : sLast (segAt ss (j + d)) < sLast (segAt ss (j + d + 1)) :=
      (chain'_getD ss (j + d) hc (by omega)).2.2
    have : j + (d + 1) = j + d + 1 := by omega
    rw [this]
    exact le_trans h1 (le_of_lt h2)

theorem sHead_mono (ss : List Segment) (hc : ss.Chain' ValidChain) :
    ∀ (d j : ℕ), j + d < ss.length → sHead (segAt ss j) ≤ sHead (segAt ss (j + d))
  | 0, j, _ => le_refl _
  | d + 1, j, h => by
    have h1 : sHead (segAt ss j) ≤ sHead (segAt ss (j + d)) :=
      sHead_mono ss hc d j (by omega)
    have h2 : sHead (segAt ss (j + d)) < sHead (segAt ss (j + d + 1)) :=
      (chain'_getD ss (j + d) hc (by omega)).1
    have : j + (d + 1) = j + d + 1 := by omega
    rw [this]
    exact le_trans h1 (le_of_lt h2)

theorem zip_tail_length (ss : List Segment) (h : ss ≠ []) :
    (ss.zip ss.tail).length = ss.length - 1 := by
  rw [List.length_zip]
  cases ss with
  | nil => simp at h
  | cons a t => simp

theorem zip_tail_getD : ∀ (ss : List Segment) (k : ℕ), k + 1 < ss.length →
    (ss.zip ss.tail).getD k (default, default) = (segAt ss k, segAt ss (k + 1))
  | [], k, h => by simp at h
  | [_], k, h => by simp at h
  | a :: b :: rest, 0, _ => by simp [segAt]
  | a :: b :: rest, k + 1, h => by
    have hz : ((a :: b :: rest).zip (a :: b :: rest).tail) =
        (a, b) :: ((b :: rest).zip rest) := rfl
    rw [hz, List.getD_cons_succ]
    have := zip_tail_getD (b :: rest) k (by simpa using h)
    simpa [segAt] using this

theorem drop_eq_getD_cons {α : Type} [Inhabited α] :
    ∀ (l : List α) (k : ℕ), k < l.length →
    l.drop k = l.getD k default :: l.drop (k + 1)
  | [], k, h => by simp at h
  | x :: t, 0, _ => by simp
  | x :: t, k + 1, h => by
    rw [List.getD_cons_succ]
    have := drop_eq_getD_cons t k (by simpa using h)
    simpa using this

theorem pov_eq (sL sR : Segment) (h1 : sHead sL < sHead sR)
    (h3 : sLast sL < sLast sR) (w : ℚ) :
    (inCover sL w && inCover sR w) = (decide (sHead sR ≤ w) && decide (w ≤ sLast sL)) := by
  rw [inCover, inCover]
  rcases le_or_lt (sHead sR) w with ha | ha
  · rcases le_or_lt w (sLast sL) with hb | hb
    · have c1 : sHead sL ≤ w := le_of_lt (lt_of_lt_of_le h1 ha)
      have c2 : w ≤ sLast sR := le_of_lt (lt_of_le_of_lt hb h3)
      simp [ha, hb, c1, c2]
    · simp [not_le.mpr hb]
  · simp [not_le.mpr ha]

theorem maskL_split (sL sR : Segment) (grid : List ℚ)
    (hgs : grid.Pairwise (· ≤ ·)) (h3 : sLast sL < sLast sR) :
    grid.filter (inCover sL) =
      grid.filter (fun w => inCover sL w && !(inCover sR w)) ++
      grid.filter (fun w => inCover sL w && inCover sR w) := by
  refine split_filter_ge (sHead sR) (inCover sL) (inCover sR) ?_ grid hgs
  intro w hw
  rw [inCover, Bool.and_eq_true, decide_eq_true_eq, decide_eq_true_eq] at hw
  rw [inCover, Bool.and_eq_true, decide_eq_true_eq, decide_eq_true_eq]
  constructor
  · exact fun hh => hh.1
  · exact fun hh => ⟨hh, le_of_lt (lt_of_le_of_lt hw.2 h3)⟩

theorem maskR_split (sL sR : Segment) (grid : List ℚ)
    (hgs : grid.Pairwise (· ≤ ·)) (h1 : sHead sL < sHead sR) :
    grid.filter (inCover sR) =
      grid.filter (fun w => inCover sR w && inCover sL w) ++
      grid.filter (fun w => inCover sR w && !(inCover sL w)) := by
  refine split_filter_le (sLast sL) (inCover sR) (inCover sL) ?_ grid hgs
  intro w hw
  rw [inCover, Bool.and_eq_true, decide_eq_true_eq, decide_eq_true_eq] at hw
  rw [inCover, Bool.and_eq_true, decide_eq_true_eq, decide_eq_true_eq]
  constructor
  · exact fun hh => hh.2
  · exact fun hh => ⟨le_of_lt (lt_of_lt_of_le h1 hw.1), hh⟩

theorem filter_and_comm (grid : List ℚ) (p q : ℚ → Bool) :
    grid.filter (fun w => p w && q w) = grid.filter (fun w => q w && p w) := by
  apply List.filter_congr
  intro w _
  rw [Bool.and_comm]

theorem lastSlice_append (X Y : List ℚ) (n : ℕ) (hY : Y.length = n) (hn : n ≠ 0) :
    lastSlice n (X ++ Y) = Y := by
  rw [lastSlice, if_neg hn, List.length_append, hY]
  have : X.length + n - n = X.length := by omega
  rw [this, List.drop_left]

theorem firstSlice_append (X Y : List ℚ) (n : ℕ) (hX : X.length = n) :
    firstSlice n (X ++ Y) = X := by
  rw [firstSlice, ← hX, List.take_left]

theorem cubeWrite_some_length (xs grid : List ℚ) (p : ℚ → Bool) (nc : ℕ)
    (val : List (List ℚ)) (r : List ℚ)
    (h : cubeWrite xs grid p nc val = some r) : r.length = xs.length := by
  rw [cubeWrite] at h
  by_cases h1 : nc = 1
  · rw [if_pos h1] at h
    by_cases h2 : val.length = (grid.filter p).length
    · rw [if_pos h2, Option.some.injEq] at h
      rw [← h]
      exact maskWriteGo_length xs grid p _
    · rw [if_neg h2] at h
      by_cases h3 : val.length = 1
      · rw [if_pos h3, Option.some.injEq] at h
        rw [← h]
        exact maskWriteGo_length xs grid p _
      · rw [if_neg h3] at h
        exact Option.noConfusion h
  · rw [if_neg h1] at h
    exact Option.noConfusion h

theorem cubeWrite_notp_getD (xs grid : List ℚ) (p : ℚ → Bool) (nc : ℕ)
    (val : List (List ℚ)) (r : List ℚ) (hlen : xs.length = grid.length)
    (i : ℕ) (hi : i < grid.length) (hp : p (grid.getD i 0) = false)
    (h : cubeWrite xs grid p nc val = some r) : r.getD i 0 = xs.getD i 0 := by
  rw [cubeWrite] at h
  by_cases h1 : nc = 1
  · rw [if_pos h1] at h
    by_cases h2 : val.length = (grid.filter p).length
    · rw [if_pos h2, Option.some.injEq] at h
      rw [← h, maskWriteGo_getD xs grid p _ i hlen hi, hp]
      simp
    · rw [if_neg h2] at h
      by_cases h3 : val.length = 1
      · rw [if_pos h3, Option.some.injEq] at h
        rw [← h, maskWriteGo_getD xs grid p _ i hlen hi, hp]
        simp
      · rw [if_neg h3] at h
        exact Option.noConfusion h
  · rw [if_neg h1] at h
    exact Option.noConfusion h

theorem cubeAdd_singleton (a b : List ℚ) :
    cubeAdd [a] [b] = some [List.zipWith (· + ·) a b] := rfl

set_option maxHeartbeats 1000000

theorem ndStep_spec (ss : List Segment) (grid : List ℚ) (st st' : NState)
    (k : ℕ) (sL sR : Segment)
    (hsR : sR = segAt ss (k + 1))
    (hwfR : sR.wf)
    (hvc : ValidChain sL sR)
    (hgs : grid.Pairwise (· ≤ ·))
    (hir : st.iright = k + 1)
    (hstL : st.sL = sL)
    (hfl : st.fluxL = coverVals grid sL sL.flux)
    (hul : st.unc2L = (coverVals grid sL sL.uncertainty).map (fun u => u * u))
    (hFlen : st.fluxM.length = grid.length)
    (hUlen : st.unc2M.length = grid.length)
    (hstep : ndStep ss grid st (sHead sR, sLast sL) = some st') :
    st'.iright = k + 2 ∧ st'.sL = sR ∧
    st'.fluxL = coverVals grid sR sR.flux ∧
    st'.unc2L = (coverVals grid sR sR.uncertainty).map (fun u => u * u) ∧
    st'.fluxM.length = grid.length ∧ st'.unc2M.length = grid.length ∧
    (∀ i, i < grid.length → sHead sR < grid.getD i 0 → grid.getD i 0 < sLast sL →
      st'.fluxM.getD i 0 = blendF sL sR (grid.getD i 0) ∧
      st'.unc2M.getD i 0 = blendU2 sL sR (grid.getD i 0)) ∧
    (∀ i, i < grid.length → grid.getD i 0 < sHead sR →
      st'.fluxM.getD i 0 = st.fluxM.getD i 0 ∧
      st'.unc2M.getD i 0 = st.unc2M.getD i 0) := by
  rw [ndStep] at hstep
  rw [hir, ← segAt, ← hsR] at hstep
  rw [interpSeg_eq sR sR.flux grid hwfR.1 (le_of_eq hwfR.2.2.1.symm)] at hstep
  rw [interpSeg_eq sR sR.uncertainty grid hwfR.1 (le_of_eq hwfR.2.2.2.symm)] at hstep
  rw [hstL, hfl, hul] at hstep
  simp only [bind, Option.some_bind, Option.bind_eq_some, Option.pure_def,
    Option.some.injEq] at hstep
  obtain ⟨fluxM1, hfM1, unc2M1, hU1, fbl, hfbl, fluxM2, hfM2,
    ubl, hubl, unc2M2, hU2, hst'⟩ := hstep
  subst hst'
  have hl1 : fluxM1.length = grid.length := by
    rw [maskWrite_some_length st.fluxM grid _ _ fluxM1 hFlen hfM1, hFlen]
  have hl3 : unc2M1.length = grid.length := by
    rw [maskWrite_some_length st.unc2M grid _ _ unc2M1 hUlen hU1, hUlen]
  have hl2 : fluxM2.length = grid.length := by
    rw [cubeWrite_some_length fluxM1 grid _ _ fbl fluxM2 hfM2, hl1]
  have hl4 : unc2M2.length = grid.length := by
    rw [cubeWrite_some_length unc2M1 grid _ _ ubl unc2M2 hU2, hl3]
  refine ⟨rfl, rfl, rfl, rfl, hl2, hl4, ?_, ?_⟩
  · intro i hi hlo hhi
    have hpov : (inCover sL (grid.getD i 0) && inCover sR (grid.getD i 0)) = true := by
      rw [pov_eq sL sR hvc.1 hvc.2.2]
      simp only [Bool.and_eq_true, decide_eq_true_eq]
      exact ⟨le_of_lt hlo, le_of_lt hhi⟩
    have htw : (List.map (fun w => (w - sHead sR) / (sLast sL - sHead sR))
        (maskVals grid fun w => inCover sL w && inCover sR w)).length =
        (grid.filter (fun w => inCover sL w && inCover sR w)).length := by
      rw [maskVals, List.length_map]
    rw [htw] at hfbl hfM2 hubl hU2
    have hn1 : (grid.filter (fun w => inCover sL w && inCover sR w)).length = 1 := by
      by_contra hne
      rw [cubeWrite, if_neg hne] at hfM2
      exact Option.noConfusion hfM2
    obtain ⟨w0, hX⟩ := List.length_eq_one.mp hn1
    have hcn : (grid.take i).countP (fun w => inCover sL w && inCover sR w) <
        (grid.filter (fun w => inCover sL w && inCover sR w)).length :=
      countP_take_lt grid _ i hi hpov
    have hnn : (grid.filter (fun w => inCover sL w && inCover sR w)).length ≠ 0 := by
      omega
    have hj0 : (grid.take i).countP (fun w => inCover sL w && inCover sR w) = 0 := by
      omega
    have hgi : grid.getD i 0 = w0 := by
      have h := filter_getD_countP grid (fun w => inCover sL w && inCover sR w) i hi hpov
      rw [hj0, hX, List.getD_cons_zero] at h
      exact h.symm
    have hLsF : lastSlice (grid.filter (fun w => inCover sL w && inCover sR w)).length
        (coverVals grid sL sL.flux) =
        (grid.filter (fun w => inCover sL w && inCover sR w)).map
          (fun w => interpVal sL.spectral_axis sL.flux w) := by
      rw [coverVals, maskL_split sL sR grid hgs hvc.2.2, List.map_append]
      exact lastSlice_append _ _ _ (by rw [List.length_map]) hnn
    have hLsU : lastSlice (grid.filter (fun w => inCover sL w && inCover sR w)).length
        ((coverVals grid sL sL.uncertainty).map (fun u => u * u)) =
        ((grid.filter (fun w => inCover sL w && inCover sR w)).map
          (fun w => interpVal sL.spectral_axis sL.uncertainty w)).map (fun u => u * u) := by
      rw [coverVals, maskL_split sL sR grid hgs hvc.2.2, List.map_append, List.map_append]
      exact lastSlice_append _ _ _ (by rw [List.length_map, List.length_map]) hnn
    have hRsF : firstSlice (grid.filter (fun w => inCover sL w && inCover sR w)).length
        (coverVals grid sR sR.flux) =
        (grid.filter (fun w => inCover sL w && inCover sR w)).map
          (fun w => interpVal sR.spectral_axis sR.flux w) := by
      rw [coverVals, maskR_split sL sR grid hgs hvc.1,
        filter_and_comm grid (inCover sR) (inCover sL), List.map_append]
      exact firstSlice_append _ _ _ (by rw [List.length_map])
    have hRsU : firstSlice (grid.filter (fun w => inCover sL w && inCover sR w)).length
        ((coverVals grid sR sR.uncertainty).map (fun u => u * u)) =
        ((grid.filter (fun w => inCover sL w && inCover sR w)).map
          (fun w => interpVal sR.spectral_axis sR.uncertainty w)).map (fun u => u * u) := by
      rw [coverVals, maskR_split sL sR grid hgs hvc.1,
        filter_and_comm grid (inCover sR) (inCover sL), List.map_append, List.map_append]
      exact firstSlice_append _ _ _ (by rw [List.length_map, List.length_map])
    rw [hLsF, hRsF] at hfbl
    rw [hLsU, hRsU] at hubl
    rw [maskVals] at hfbl hubl
    rw [hX] at hfbl hubl
    simp only [cubeMul, List.map_cons, List.map_nil] at hfbl hubl
    rw [cubeAdd_singleton] at hfbl hubl
    simp only [List.zipWith_cons_cons, List.zipWith_nil, Option.some.injEq] at hfbl hubl
    rw [cubeWrite] at hfM2 hU2
    rw [hn1] at hfM2 hU2
    rw [if_pos rfl] at hfM2 hU2
    rw [← hfbl] at hfM2
    rw [← hubl] at hU2
    simp only [List.length_singleton, ite_true] at hfM2 hU2
    simp only [List.map_cons, List.map_nil, List.headD_cons, Option.some.injEq] at hfM2 hU2
    constructor
    · show fluxM2.getD i 0 = _
      rw [← hfM2]
      rw [maskWriteGo_getD fluxM1 grid _ _ i hl1 hi, if_pos hpov, hj0,
        List.getD_cons_zero, hgi]
      rfl
    · show unc2M2.getD i 0 = _
      rw [← hU2]
      rw [maskWriteGo_getD unc2M1 grid _ _ i hl3 hi, if_pos hpov, hj0,
        List.getD_cons_zero, hgi]
      rfl
  · intro i hi hw
    have hpRf : inCover sR (grid.getD i 0) = false := by
      rw [inCover]
      have hd : decide (sHead sR ≤ grid.getD i 0) = false := by
        rw [decide_eq_false_iff_not]
        exact not_le.mpr hw
      rw [hd, Bool.false_and]
    have hpOvf : (inCover sL (grid.getD i 0) && inCover sR (grid.getD i 0)) = false := by
      rw [hpRf]
      simp
    constructor
    · exact (cubeWrite_notp_getD fluxM1 grid _ _ fbl fluxM2 hl1 i hi hpOvf hfM2).trans
        (maskWrite_notp_getD st.fluxM grid _ _ fluxM1 hFlen i hi hpRf hfM1)
    · exact (cubeWrite_notp_getD unc2M1 grid _ _ ubl unc2M2 hl3 i hi hpOvf hU2).trans
        (maskWrite_notp_getD st.unc2M grid _ _ unc2M1 hUlen i hi hpRf hU1)

theorem getD_map_gen {α β : Type} [Inhabited α] [Inhabited β] (f : α → β) :
    ∀ (l : List α) (k : ℕ), k < l.length →
    (l.map f).getD k default = f (l.getD k default)
  | [], k, h => by simp at h
  | x :: t, 0, _ => by simp
  | x :: t, k + 1, h => by
    simp only [List.map_cons, List.getD_cons_succ]
    exact getD_map_gen f t k (by simpa using h)

theorem ndFold_invariant (ss : List Segment) (grid : List ℚ) (hv : Valid ss)
    (hgrid : grid = new_spectral_axis ss) :
    ∀ (m k : ℕ) (st fin : NState),
    m = ss.length - 1 - k →
    k + 1 ≤ ss.length →
    st.iright = k + 1 →
    st.sL = segAt ss k →
    st.fluxL = coverVals grid (segAt ss k) (segAt ss k).flux →
    st.unc2L = (coverVals grid (segAt ss k) (segAt ss k).uncertainty).map
      (fun u => u * u) →
    st.fluxM.length = grid.length →
    st.unc2M.length = grid.length →
    (∀ j, j + 1 ≤ k → blendedAt ss grid st.fluxM st.unc2M j) →
    ((find_overlap_ranges ss).drop k).foldlM (ndStep ss grid) st = some fin →
    ∀ j, j + 1 < ss.length → blendedAt ss grid fin.fluxM fin.unc2M j := by
  have hne : ss ≠ [] := hv.1
  have hRSeq : find_overlap_ranges ss = (ss.zip ss.tail).map rangeOf :=
    find_overlap_ranges_eq_of_chain ss hv.2.2.1
  have hRSlen : (find_overlap_ranges ss).length = ss.length - 1 := by
    rw [hRSeq, List.length_map, zip_tail_length ss hne]
  intro m
  induction m with
  | zero =>
    intro k st fin hm hk hir hsL hfl hul hFlen hUlen hblend hfold j hj
    have hdrop : (find_overlap_ranges ss).drop k = [] := by
      apply List.drop_eq_nil_of_le
      omega
    rw [hdrop, List.foldlM_nil] at hfold
    have hfin : st = fin := by
      simpa using hfold
    subst hfin
    exact hblend j (by omega)
  | succ m ih =>
    intro k st fin hm hk hir hsL hfl hul hFlen hUlen hblend hfold j hj
    have hklen : k < (find_overlap_ranges ss).length := by omega
    have hk1 : k + 1 < ss.length := by omega
    have hdrop : (find_overlap_ranges ss).drop k =
        (find_overlap_ranges ss).getD k default :: (find_overlap_ranges ss).drop (k + 1) :=
      drop_eq_getD_cons _ k hklen
    have hrk : (find_overlap_ranges ss).getD k default =
        (sHead (segAt ss (k + 1)), sLast (segAt ss k)) := by
      rw [hRSeq, getD_map_gen rangeOf _ k (by rw [zip_tail_length ss hne]; omega)]
      have : (ss.zip ss.tail).getD k default = (segAt ss k, segAt ss (k + 1)) :=
        zip_tail_getD ss k hk1
      rw [this]
      rfl
    rw [hdrop, hrk, List.foldlM_cons] at hfold
    simp only [bind, Option.bind_eq_some] at hfold
    obtain ⟨st', hstep, hrest⟩ := hfold
    have hwfR : (segAt ss (k + 1)).wf := hv.2.1 _ (segAt_mem ss (k + 1) hk1)
    have hvc : ValidChain (segAt ss k) (segAt ss (k + 1)) :=
      chain'_getD ss k hv.2.2.1 hk1
    have hgs : grid.Pairwise (· ≤ ·) := by
      rw [hgrid]
      exact new_spectral_axis_sorted ss
    have hspec := ndStep_spec ss grid st st' k (segAt ss k) (segAt ss (k + 1))
      rfl hwfR hvc hgs hir hsL hfl hul hFlen hUlen hstep
    obtain ⟨hir', hsL', hfl', hul', hFlen', hUlen', hblendk, hpres⟩ := hspec
    refine ih (k + 1) st' fin (by omega) (by omega) hir' hsL' hfl' hul'
      hFlen' hUlen' ?_ hrest j hj
    intro j' hj'
    rcases Nat.lt_or_ge j' k with hjk | hjk
    · -- preserved older region
      intro i hi hlo hhi
      have hup : grid.getD i 0 < sHead (segAt ss (k + 1)) := by
        have h1 : sLast (segAt ss j') ≤ sLast (segAt ss (k - 1)) := by
          have := sLast_mono ss hv.2.2.1 (k - 1 - j') j' (by omega)
          have heq : j' + (k - 1 - j') = k - 1 := by omega
          rw [heq] at this
          exact this
        have h2 : sLast (segAt ss (k - 1)) < sHead (segAt ss (k + 1)) := by
          have := nbrOnly_getD ss (k - 1) hv.2.2.2 (by omega)
          have heq : k - 1 + 2 = k + 1 := by omega
          rw [heq] at this
          exact this
        exact lt_of_lt_of_le (lt_of_lt_of_le hhi (le_trans h1 (le_of_lt h2)))
          (le_refl _)
      have hp := hpres i hi hup
      have hold := hblend j' (by omega) i hi hlo hhi
      exact ⟨hp.1.trans hold.1 |>.symm ▸ (hp.1.trans hold.1), hp.2.trans hold.2⟩
    · -- j' = k : freshly blended
      have hjeq : j' = k := by omega
      subst hjeq
      intro i hi hlo hhi
      exact hblendk i hi hlo hhi

theorem ranges_getD_valid (ss : List Segment) (hv : Valid ss) (k : ℕ)
    (hk : k + 1 < ss.length) :
    (find_overlap_ranges ss).getD k default =
      (sHead (segAt ss (k + 1)), sLast (segAt ss k)) := by
  have hne : ss ≠ [] := hv.1
  rw [find_overlap_ranges_eq_of_chain ss hv.2.2.1,
    getD_map_gen rangeOf _ k (by rw [zip_tail_length ss hne]; omega)]
  have hz : (ss.zip ss.tail).getD k default = (segAt ss k, segAt ss (k + 1)) :=
    zip_tail_getD ss k hk
  rw [hz]
  rfl

/-- Claim C4: in the N-dimensional merge of a valid sorted segment list,
the `k`-th overlap range is `(wmin, wmax) = (sHead ss[k+1], sLast ss[k])`,
and at every unified-grid point `w` strictly inside it the merged flux is
`(1-t)·flux_left(w) + t·flux_right(w)` and the merged squared uncertainty is
`(1-t)·unc2_left(w) + t·unc2_right(w)` with `t = (w-wmin)/(wmax-wmin)` and
the left/right values linearly interpolated from the two segments; the
returned uncertainty is the elementwise square root of the accumulated
squared-uncertainty buffer. -/
theorem c4_nd_blend_formula (ss : List Segment) (m : MergedN)
    (hv : Valid ss) (hm : merge_nd_memfriendly ss = some m) :
    (∀ k, k + 1 < ss.length →
      (find_overlap_ranges ss).getD k default =
        (sHead (segAt ss (k + 1)), sLast (segAt ss k)) ∧
      blendedAt ss m.axis m.flux m.unc2 k) ∧
    mergedUnc m = m.unc2.map (fun q => Real.sqrt (q : ℝ)) := by
  simp only [merge_nd_memfriendly, bind, Option.bind_eq_some, Option.pure_def,
    Option.some.injEq] at hm
  obtain ⟨s0, hs0, fl, hfl, ul, hul, fm, hfm, um, hum, fin, hfin, hm⟩ := hm
  have hss0 : segAt ss 0 = s0 := by
    cases ss with
    | nil => simp at hs0
    | cons a t =>
      have ha : a = s0 := by simpa using hs0
      rw [← ha]; rfl
  have hmem : s0 ∈ ss := by
    rw [← hss0]
    exact segAt_mem ss 0 (by have := List.length_pos.mpr hv.1; omega)
  have hwf0 : s0.wf := hv.2.1 s0 hmem
  have h2 : 2 ≤ s0.spectral_axis.length := hwf0.1
  have hflE := interpSeg_eq s0 s0.flux (new_spectral_axis ss) h2
    (le_of_eq hwf0.2.2.1.symm)
  have hulE := interpSeg_eq s0 s0.uncertainty (new_spectral_axis ss) h2
    (le_of_eq hwf0.2.2.2.symm)
  rw [hflE] at hfl
  rw [hulE] at hul
  have hfl' : fl = coverVals (new_spectral_axis ss) s0 s0.flux :=
    (Option.some.inj hfl).symm
  have hul' : ul = coverVals (new_spectral_axis ss) s0 s0.uncertainty :=
    (Option.some.inj hul).symm
  have hfmlen : fm.length = (new_spectral_axis ss).length := by
    have := maskWrite_some_length _ _ _ _ _ (by simp) hfm
    simpa using this
  have humlen : um.length = (new_spectral_axis ss).length := by
    have := maskWrite_some_length _ _ _ _ _ (by simp) hum
    simpa using this
  have hinv := ndFold_invariant ss (new_spectral_axis ss) hv rfl
    (ss.length - 1) 0 ⟨1, s0, fl, ul.map (fun u => u * u), fm, um⟩ fin
    rfl (by have := List.length_pos.mpr hv.1; omega) rfl hss0.symm
    (by rw [hfl', hss0]) (by rw [hul', hss0]) hfmlen humlen
    (by intro j hj; omega) hfin
  rw [← hm]
  refine ⟨?_, rfl⟩
  intro k hk
  exact ⟨ranges_getD_valid ss hv k hk, hinv k hk⟩

/-- Witness for C4: two strictly overlapping segments `sA4` (axis
`[0, 3.5, 4]`) and `sB4` (axis `[3, 5]`); the merge succeeds with grid
`[0, 3.5, 5]`, and at the interior grid point `3.5` of the overlap
`(3, 4)` the flux `16 = (1/2)·12 + (1/2)·20` and squared uncertainty
`5/2 = (1/2)·1 + (1/2)·4` are the claimed blends. -/
theorem c4_witness :
    Valid [sA4, sB4] ∧
    merge_nd_memfriendly [sA4, sB4] =
      some ⟨[0, 7/2, 5], [10, 16, 20], [1, 5/2, 4]⟩ ∧
    blendedAt [sA4, sB4] [0, 7/2, 5] [10, 16, 20] [1, 5/2, 4] 0 := by
  refine ⟨by decide, by decide, ?_⟩
  exact (c4_nd_blend_formula [sA4, sB4] ⟨[0, 7/2, 5], [10, 16, 20], [1, 5/2, 4]⟩
    (by decide) (by decide)).1 0 (by decide) |>.2
